import Mathlib

set_option maxRecDepth 10000

/-!
Verification development for the `parse-mediawiki-sql` crate, a streaming
parser for MediaWiki SQL dumps.  The crate is built on the `nom` streaming
combinators; we model its byte-level parsers over `List Nat` (each element a
byte value), with an explicit result type mirroring `nom::IResult`:
success carries the unconsumed suffix and a value, and the three failure
modes (`Err::Error`, `Err::Failure` produced by `cut`, `Err::Incomplete`
produced by streaming parsers at end of input) are distinguished, because
`opt` and `alt` treat them differently.
-/

namespace MwSql

/-- A byte of the input, as a natural number < 256 (unconstrained here; all
inputs we study are built from bytes). -/
abbrev Byte := Nat

/-- Byte string of an (ASCII) Lean string literal. -/
def strB (s : String) : List Byte :=
  s.data.map Char.toNat

/-- Result of a `nom` streaming parser on a byte slice:
`ok rest val` for `Ok((rest, val))`, `err` for `Err::Error`,
`fail` for `Err::Failure` (produced by `cut`), `incomplete` for
`Err::Incomplete`. -/
inductive PResult (α : Type) where
  | ok (rest : List Byte) (val : α)
  | err
  | fail
  | incomplete
deriving Repr, DecidableEq

/-- A parser from bytes, as used in `from_sql.rs`:
`fn(&[u8]) -> IResult<&[u8], T>`. -/
abbrev Parser (α : Type) : Type := List Byte → PResult α

/-- Sequencing helper: propagate the three failure modes unchanged. -/
def PResult.andThen (r : PResult α) (f : List Byte → α → PResult β) : PResult β :=
  match r with
  | .ok rest v => f rest v
  | .err => .err
  | .fail => .fail
  | .incomplete => .incomplete

/-- `nom::bytes::streaming::tag`: match an exact byte sequence; if the input
is a proper prefix of the tag, more input is needed. -/
def ptag (t : List Byte) : Parser (List Byte) := fun s =>
  if t.isPrefixOf s then .ok (s.drop t.length) t
  else if s.isPrefixOf t then .incomplete
  else .err

/-- `nom::character::streaming::char` (restricted to ASCII, hence one byte). -/
def pchar (c : Byte) : Parser Byte := fun s =>
  match s with
  | [] => .incomplete
  | b :: r => if b = c then .ok r c else .err

/-- `nom::character::streaming::one_of` (ASCII character set). -/
def poneOf (cs : List Byte) : Parser Byte := fun s =>
  match s with
  | [] => .incomplete
  | b :: r => if b ∈ cs then .ok r b else .err

/-- ASCII decimal digit. -/
def isDigitB (b : Byte) : Bool := 48 ≤ b && b ≤ 57

/-- The whitespace recognized by `nom`'s `multispace0`: space, tab, CR, LF. -/
def isWsB (b : Byte) : Bool := b = 32 || b = 9 || b = 13 || b = 10

/-- `nom::character::streaming::digit1`: one or more ASCII digits; reaching
the end of input while still matching yields `Incomplete` (streaming). -/
def pdigit1 : Parser (List Byte) := fun s =>
  let d := s.takeWhile isDigitB
  let r := s.dropWhile isDigitB
  if r.isEmpty then .incomplete
  else if d.isEmpty then .err
  else .ok r d

/-- `nom::character::streaming::multispace0`: zero or more whitespace bytes;
`Incomplete` when the scan reaches the end of input (streaming). -/
def pmultispace0 : Parser (List Byte) := fun s =>
  let d := s.takeWhile isWsB
  let r := s.dropWhile isWsB
  if r.isEmpty then .incomplete else .ok r d

/-- `nom::bytes::streaming::take_while`: zero or more bytes satisfying `p`;
`Incomplete` when the scan reaches the end of input (streaming). -/
def ptakeWhile (p : Byte → Bool) : Parser (List Byte) := fun s =>
  let r := s.dropWhile p
  if r.isEmpty then .incomplete else .ok r (s.takeWhile p)

/-- `nom::bytes::streaming::is_not`: one or more bytes not in `stop`;
error when the first byte is in `stop`, `Incomplete` at end of input. -/
def pisNot (stop : List Byte) : Parser (List Byte) := fun s =>
  let d := s.takeWhile (fun b => !(stop.contains b))
  let r := s.dropWhile (fun b => !(stop.contains b))
  if r.isEmpty then .incomplete
  else if d.isEmpty then .err
  else .ok r d

/-- `nom::combinator::map`. -/
def pmap (p : Parser α) (f : α → β) : Parser β := fun s =>
  (p s).andThen fun r v => .ok r (f v)

/-- `nom::combinator::map_res`: the Rust conversion failure (`Err` of the
closure) becomes `Err::Error`. -/
def pmapRes (p : Parser α) (f : α → Option β) : Parser β := fun s =>
  (p s).andThen fun r v =>
    match f v with
    | some w => .ok r w
    | none => .err

/-- `nom::combinator::opt`: recovers from `Err::Error` only; `Failure` and
`Incomplete` still abort. -/
def popt (p : Parser α) : Parser (Option α) := fun s =>
  match p s with
  | .ok r v => .ok r (some v)
  | .err => .ok s Option.none
  | .fail => .fail
  | .incomplete => .incomplete

/-- `nom::branch::alt` for two branches: the second branch runs only when the
first returns `Err::Error`. -/
def palt (p q : Parser α) : Parser α := fun s =>
  match p s with
  | .err => q s
  | r => r

/-- `nom::sequence::pair` / two-component `tuple`. -/
def pseq (p : Parser α) (q : Parser β) : Parser (α × β) := fun s =>
  (p s).andThen fun r v => (q r).andThen fun r2 w => .ok r2 (v, w)

/-- `nom::sequence::preceded`. -/
def ppreceded (p : Parser α) (q : Parser β) : Parser β :=
  pmap (pseq p q) Prod.snd

/-- `nom::sequence::terminated`. -/
def pterminated (p : Parser α) (q : Parser β) : Parser α :=
  pmap (pseq p q) Prod.fst

/-- `nom::combinator::recognize`: return the consumed input instead of the
value. -/
def precognize (p : Parser α) : Parser (List Byte) := fun s =>
  (p s).andThen fun r _ => .ok r (s.take (s.length - r.length))

/-- `nom::combinator::cut`: turn a recoverable `Err::Error` into
`Err::Failure`. -/
def pcut (p : Parser α) : Parser α := fun s =>
  match p s with
  | .err => .fail
  | r => r

/-- `nom::error::context`: attaches an error label; labels do not affect the
success/failure behaviour modelled here, so this is the identity on results. -/
def pcontext (_label : String) (p : Parser α) : Parser α := p

/-! ## UTF-8 validity (`std::str::from_utf8`) -/

/-- A UTF-8 continuation byte, `0x80..=0xBF`. -/
def isCont (b : Byte) : Bool := 128 ≤ b && b ≤ 191

/-- Validity of the second byte of a three-byte sequence, which depends on the
lead byte (excluding overlong forms and surrogates, as Rust does). -/
def threeByteSnd (b1 b2 : Byte) : Bool :=
  if b1 = 224 then 160 ≤ b2 && b2 ≤ 191
  else if b1 = 237 then 128 ≤ b2 && b2 ≤ 159
  else isCont b2

/-- Validity of the second byte of a four-byte sequence. -/
def fourByteSnd (b1 b2 : Byte) : Bool :=
  if b1 = 240 then 144 ≤ b2 && b2 ≤ 191
  else if b1 = 244 then 128 ≤ b2 && b2 ≤ 143
  else isCont b2

/-- `std::str::from_utf8` succeeds: the byte list is well-formed UTF-8
(no overlong encodings, no surrogates, lead bytes in the valid ranges). -/
def utf8Valid : List Byte → Bool
  | [] => true
  | b1 :: r1 =>
    if b1 < 128 then utf8Valid r1
    else if b1 < 194 then false
    else if b1 ≤ 223 then
      match r1 with
      | b2 :: r2 => isCont b2 && utf8Valid r2
      | [] => false
    else if b1 ≤ 239 then
      match r1 with
      | b2 :: b3 :: r3 => threeByteSnd b1 b2 && isCont b3 && utf8Valid r3
      | _ => false
    else if b1 ≤ 244 then
      match r1 with
      | b2 :: b3 :: b4 :: r4 => fourByteSnd b1 b2 && isCont b3 && isCont b4 && utf8Valid r4
      | _ => false
    else false

/-! ## Scalar parsers (`from_sql.rs`) -/

/-- Decimal value of a run of ASCII digit bytes. -/
def digitsToNat (ds : List Byte) : Nat :=
  ds.foldl (fun n b => n * 10 + (b - 48)) 0

/-- `impl FromSql for u32`: `recognize(digit1)` then Rust `str::parse::<u32>`,
which fails on overflow (`map_res`). -/
def u32FromSql : Parser Nat :=
  pcontext ("number (u32)")
    (pmapRes (precognize pdigit1) fun bs =>
      let n := digitsToNat bs
      if n < 2 ^ 32 then some n else Option.none)

/-- `impl FromSql for u64`, as `u32` but 64-bit bound. -/
def u64FromSql : Parser Nat :=
  pcontext ("number (u64)")
    (pmapRes (precognize pdigit1) fun bs =>
      let n := digitsToNat bs
      if n < 2 ^ 64 then some n else Option.none)

/-- `impl FromSql for i32`: `recognize(tuple((opt(char('-')), digit1)))`,
then Rust `str::parse::<i32>` with its overflow check. -/
def i32FromSql : Parser Int :=
  pcontext ("number (i32)")
    (pmapRes (precognize (pseq (popt (pchar 45)) pdigit1)) fun bs =>
      match bs with
      | 45 :: ds =>
        let n := digitsToNat ds
        if n ≤ 2 ^ 31 then some (-(n : Int)) else Option.none
      | ds =>
        let n := digitsToNat ds
        if n < 2 ^ 31 then some (n : Int) else Option.none)

/-- The single quote byte `'`. -/
def qB : Byte := 39

/-- The backslash byte `\`. -/
def bsB : Byte := 92

/-- `impl FromSql for &[u8]`: a single-quoted byte string with no escape
sequences; the interior (possibly empty, via `opt(is_not("'"))`) is returned
as a borrowed slice. -/
def bytesFromSql : Parser (List Byte) :=
  pcontext ("byte string with no escape sequences")
    (ppreceded (ptag [qB])
      (pterminated
        (pmap (popt (pisNot [qB])) fun o => o.getD [])
        (ptag [qB])))

/-- `impl FromSql for &str`: `map_res(<&[u8]>::from_sql, str::from_utf8)`.
A `&str` is represented by its UTF-8 bytes, so the conversion validates and
returns the same bytes. -/
def strFromSql : Parser (List Byte) :=
  pcontext ("string with no escape sequences")
    (pmapRes bytesFromSql fun bs => if utf8Valid bs then some bs else Option.none)

/-- The stop set of `is_not(B("\\\"'"))` inside `escaped_transform`:
backslash, double quote, single quote. -/
def escStop : List Byte := [92, 34, 39]

/-- The escape table of `impl FromSql for Vec<u8>`: the byte following a
backslash and the single byte it decodes to (`one_of(B(r#"0btnrZ\'""#))`
followed by the match). -/
def escDecode (b : Byte) : Option Byte :=
  if b = 48 then some 0        -- '0' => NUL
  else if b = 98 then some 8   -- 'b' => backspace
  else if b = 116 then some 9  -- 't' => tab
  else if b = 110 then some 10 -- 'n' => line feed
  else if b = 114 then some 13 -- 'r' => carriage return
  else if b = 90 then some 26  -- 'Z' => substitute
  else if b = 92 then some 92  -- '\' => '\'
  else if b = 39 then some 39  -- '\x27' => '\x27'
  else if b = 34 then some 34  -- '"' => '"'
  else Option.none

/-- The loop of `nom::bytes::streaming::escaped_transform`, stated byte by
byte (equivalent to nom's chunk-at-a-time loop): bytes outside `escStop` are
copied; a backslash must be followed by a byte in the escape table, which is
decoded; a quote byte ends the loop — with an error if nothing was consumed
yet (`first`), since `escaped_transform` then fails; reaching the end of
input yields `Incomplete` (streaming). -/
def escLoop : Bool → List Byte → List Byte → PResult (List Byte)
  | _, _, [] => .incomplete
  | first, acc, b :: bs =>
    if b = bsB then
      match bs with
      | [] => .incomplete
      | x :: r2 =>
        match escDecode x with
        | some d => escLoop false (acc ++ [d]) r2
        | none => .err
    else if b = 34 || b = 39 then
      if first then .err else .ok (b :: bs) acc
    else escLoop false (acc ++ [b]) bs

/-- `impl FromSql for Vec<u8>`: a single-quoted byte string with MySQL escape
sequences, unescaped into an owned buffer
(`opt(escaped_transform(..)).unwrap_or_default()` between quote tags). -/
def vecU8FromSql : Parser (List Byte) :=
  pcontext ("byte string")
    (ppreceded (ptag [qB])
      (pterminated
        (pmap (popt (fun s => escLoop true [] s)) fun o => o.getD [])
        (ptag [qB])))

/-- `impl FromSql for String`: `map_res(<Vec<u8>>::from_sql, String::from_utf8)`. -/
def stringFromSql : Parser (List Byte) :=
  pcontext ("string")
    (pmapRes vecU8FromSql fun bs => if utf8Valid bs then some bs else Option.none)

/-! ## Enumerations (`field_types.rs`)

Rust `&str` values are represented by their UTF-8 bytes; `&str` equality is
byte equality, so the lookup tables compare byte lists. -/

/-- `cl_type` of the `categorylinks` table: a closed enumeration. -/
inductive PageType where
  | Page
  | Subcat
  | File
deriving Repr, DecidableEq

/-- `impl TryFrom<&str> for PageType`: the unrecognized string is an error. -/
def pageTypeOfBytes (bs : List Byte) : Option PageType :=
  if bs = strB ("page") then some .Page
  else if bs = strB ("subcat") then some .Subcat
  else if bs = strB ("file") then some .File
  else Option.none

/-- `impl FromSql for PageType`:
`map_res(<&str>::from_sql, PageType::try_from)`. -/
def pageTypeFromSql : Parser PageType :=
  pcontext ("PageType") (pmapRes strFromSql pageTypeOfBytes)

/-- `pr_type` of the `page_restrictions` table: the restricted action. -/
inductive PageAction where
  | Edit
  | Move
  | Reply
  | Upload
  | All
  | Other (s : List Byte)
deriving Repr, DecidableEq

/-- `impl From<&str> for PageAction`: note there is no arm for `"all"`;
`All` is never produced by this table. -/
def pageActionOfBytes (bs : List Byte) : PageAction :=
  if bs = strB ("edit") then .Edit
  else if bs = strB ("move") then .Move
  else if bs = strB ("reply") then .Reply
  else if bs = strB ("upload") then .Upload
  else .Other bs

/-- `impl FromSql for PageAction`: `map(<&str>::from_sql, PageAction::from)`
(no context label in the source). -/
def pageActionFromSql : Parser PageAction :=
  pmap strFromSql pageActionOfBytes

/-- `pr_level` of the `page_restrictions` table. -/
inductive ProtectionLevel where
  | Autoconfirmed
  | ExtendedConfirmed
  | Sysop
  | TemplateEditor
  | EditProtected
  | EditSemiProtected
  | None
  | Other (s : List Byte)
deriving Repr, DecidableEq

/-- `impl From<&str> for ProtectionLevel`: the empty string maps to the
distinguished `None` level. -/
def protectionLevelOfBytes (bs : List Byte) : ProtectionLevel :=
  if bs = strB ("autoconfirmed") then .Autoconfirmed
  else if bs = strB ("extendedconfirmed") then .ExtendedConfirmed
  else if bs = strB ("templateeditor") then .TemplateEditor
  else if bs = strB ("sysop") then .Sysop
  else if bs = strB ("editprotected") then .EditProtected
  else if bs = strB ("editsemiprotected") then .EditSemiProtected
  else if bs = [] then .None
  else .Other bs

/-- `impl FromSql for ProtectionLevel`. -/
def protectionLevelFromSql : Parser ProtectionLevel :=
  pcontext ("ProtectionLevel") (pmap strFromSql protectionLevelOfBytes)

/-- `page_content_model` of the `page` table. -/
inductive ContentModel where
  | Wikitext
  | Scribunto
  | Text
  | Css
  | SanitizedCss
  | JavaScript
  | Json
  | Other (s : List Byte)
deriving Repr, DecidableEq

/-- `impl From<&str> for ContentModel`. -/
def contentModelOfBytes (bs : List Byte) : ContentModel :=
  if bs = strB ("wikitext") then .Wikitext
  else if bs = strB ("Scribunto") then .Scribunto
  else if bs = strB ("text") then .Text
  else if bs = strB ("css") then .Css
  else if bs = strB ("sanitized-css") then .SanitizedCss
  else if bs = strB ("javascript") then .JavaScript
  else if bs = strB ("json") then .Json
  else .Other bs

/-- `impl FromSql for ContentModel`. -/
def contentModelFromSql : Parser ContentModel :=
  pcontext ("ContentModel") (pmap strFromSql contentModelOfBytes)

/-- `img_media_type` of the `image` table. -/
inductive MediaType where
  | Unknown
  | Bitmap
  | Drawing
  | Audio
  | Video
  | Multimedia
  | Office
  | Text
  | Executable
  | Archive
  | ThreeDimensional
  | Other (s : List Byte)
deriving Repr, DecidableEq

/-- `impl From<&str> for MediaType`. -/
def mediaTypeOfBytes (bs : List Byte) : MediaType :=
  if bs = strB ("UNKNOWN") then .Unknown
  else if bs = strB ("BITMAP") then .Bitmap
  else if bs = strB ("DRAWING") then .Drawing
  else if bs = strB ("AUDIO") then .Audio
  else if bs = strB ("VIDEO") then .Video
  else if bs = strB ("MULTIMEDIA") then .Multimedia
  else if bs = strB ("OFFICE") then .Office
  else if bs = strB ("TEXT") then .Text
  else if bs = strB ("EXECUTABLE") then .Executable
  else if bs = strB ("ARCHIVE") then .Archive
  else if bs = strB ("3D") then .ThreeDimensional
  else .Other bs

/-- `impl FromSql for MediaType`. -/
def mediaTypeFromSql : Parser MediaType :=
  pcontext ("MediaType") (pmap strFromSql mediaTypeOfBytes)

/-- `img_major_mime` of the `image` table. -/
inductive MajorMime where
  | Unknown
  | Application
  | Audio
  | Image
  | Text
  | Video
  | Message
  | Model
  | Multipart
  | Other (s : List Byte)
deriving Repr, DecidableEq

/-- `impl From<&str> for MajorMime`. -/
def majorMimeOfBytes (bs : List Byte) : MajorMime :=
  if bs = strB ("unknown") then .Unknown
  else if bs = strB ("application") then .Application
  else if bs = strB ("audio") then .Audio
  else if bs = strB ("image") then .Image
  else if bs = strB ("text") then .Text
  else if bs = strB ("video") then .Video
  else if bs = strB ("message") then .Message
  else if bs = strB ("model") then .Model
  else if bs = strB ("multipart") then .Multipart
  else .Other bs

/-- `impl FromSql for MajorMime`. -/
def majorMimeFromSql : Parser MajorMime :=
  pcontext ("MajorMime") (pmap strFromSql majorMimeOfBytes)

/-! ## Timestamp (`field_types.rs` and the `chrono` parsing it delegates to)

`Timestamp::from_sql` parses a `&str` and feeds it to
`chrono::NaiveDateTime::parse_from_str` with the format `"%Y%m%d%H%M%S"`
when the string length is 14 and `"%Y-%m-%d %H:%M:%S"` otherwise.  The
relevant behaviour of chrono's parser is modelled below: each numeric item
first skips leading whitespace (ASCII whitespace here; chrono uses Unicode
whitespace, which no MediaWiki timestamp contains), then reads between 1 and
`width` ASCII digits (`scan::number(s, 1, width)`); `%Y` additionally accepts
a leading sign followed by an unbounded digit run; a literal matches one
exact byte; the space item skips any run of whitespace; trailing input is an
error (`TOO_LONG`); finally the fields must form a valid proleptic-Gregorian
calendar date (chrono's year range `-262144..=262143`) and a valid time,
where second 60 denotes a leap second stored as second 59 with an extra
second of nanoseconds. -/

/-- The result of `chrono::NaiveDateTime` construction, by components. -/
structure NaiveDateTime where
  year : Int
  month : Nat
  day : Nat
  hour : Nat
  minute : Nat
  second : Nat
  nano : Nat
deriving Repr, DecidableEq

/-- Whitespace for chrono's `trim_left` (ASCII subset). -/
def isChronoWs (b : Byte) : Bool :=
  b = 32 || b = 9 || b = 10 || b = 11 || b = 12 || b = 13

/-- Skip leading whitespace. -/
def trimWs (s : List Byte) : List Byte := s.dropWhile isChronoWs

/-- `chrono::format::scan::number(s, 1, max)`: up to `max` leading ASCII
digits, at least one. -/
def scanNumber (max : Nat) (s : List Byte) : Option (Nat × List Byte) :=
  let ds := (s.take max).takeWhile isDigitB
  if ds.isEmpty then Option.none
  else some (digitsToNat ds, s.drop ds.length)

/-- An unbounded digit run, at least one digit (`scan::number(s, 1, MAX)`). -/
def scanNumberAll (s : List Byte) : Option (Nat × List Byte) :=
  let ds := s.takeWhile isDigitB
  if ds.isEmpty then Option.none
  else some (digitsToNat ds, s.drop ds.length)

/-- chrono's `%Y` on parse: trim, then either a sign and an unbounded digit
run, or at most 4 digits. -/
def parseYearItem (s : List Byte) : Option (Int × List Byte) :=
  let s := trimWs s
  match s with
  | b :: r =>
    if b = 45 then (scanNumberAll r).map fun p => (-(p.1 : Int), p.2)
    else if b = 43 then (scanNumberAll r).map fun p => ((p.1 : Int), p.2)
    else (scanNumber 4 s).map fun p => ((p.1 : Int), p.2)
  | [] => Option.none

/-- chrono's two-digit numeric items (`%m %d %H %M %S`) on parse: trim, then
1 or 2 digits. -/
def parseNum2Item (s : List Byte) : Option (Nat × List Byte) :=
  scanNumber 2 (trimWs s)

/-- A literal byte of the format string. -/
def parseLitItem (c : Byte) (s : List Byte) : Option (List Byte) :=
  match s with
  | b :: r => if b = c then some r else Option.none
  | [] => Option.none

/-- Proleptic-Gregorian leap year. -/
def isLeapYear (y : Int) : Bool :=
  (y % 4 = 0 && y % 100 ≠ 0) || y % 400 = 0

/-- Days in a month of a given year. -/
def daysInMonth (y : Int) (m : Nat) : Nat :=
  if m = 2 then (if isLeapYear y then 29 else 28)
  else if m = 4 || m = 6 || m = 9 || m = 11 then 30
  else 31

/-- `chrono::NaiveDate::from_ymd_opt` validity, with chrono's year range. -/
def ymdValid (y : Int) (m d : Nat) : Bool :=
  -262144 ≤ y && y ≤ 262143 &&
  1 ≤ m && m ≤ 12 && 1 ≤ d && d ≤ daysInMonth y m

/-- `chrono::Parsed::to_naive_datetime_with_offset(0)` given parsed fields:
calendar-validating construction; second 60 is a leap second. -/
def buildDateTime (y : Int) (mo d h mi s : Nat) : Option NaiveDateTime :=
  if ymdValid y mo d && h ≤ 23 && mi ≤ 59 then
    if s ≤ 59 then some ⟨y, mo, d, h, mi, s, 0⟩
    else if s = 60 then some ⟨y, mo, d, h, mi, 59, 1000000000⟩
    else Option.none
  else Option.none

/-- `NaiveDateTime::parse_from_str(s, "%Y%m%d%H%M%S")`. -/
def parseCompactFmt (s : List Byte) : Option NaiveDateTime :=
  (parseYearItem s).bind fun (y, s1) =>
  (parseNum2Item s1).bind fun (mo, s2) =>
  (parseNum2Item s2).bind fun (d, s3) =>
  (parseNum2Item s3).bind fun (h, s4) =>
  (parseNum2Item s4).bind fun (mi, s5) =>
  (parseNum2Item s5).bind fun (sec, s6) =>
  if s6.isEmpty then buildDateTime y mo d h mi sec else Option.none

/-- `NaiveDateTime::parse_from_str(s, "%Y-%m-%d %H:%M:%S")`. -/
def parseSpacedFmt (s : List Byte) : Option NaiveDateTime :=
  (parseYearItem s).bind fun (y, s1) =>
  (parseLitItem 45 s1).bind fun s2 =>
  (parseNum2Item s2).bind fun (mo, s3) =>
  (parseLitItem 45 s3).bind fun s4 =>
  (parseNum2Item s4).bind fun (d, s5) =>
  (parseNum2Item (trimWs s5)).bind fun (h, s6) =>
  (parseLitItem 58 s6).bind fun s7 =>
  (parseNum2Item s7).bind fun (mi, s8) =>
  (parseLitItem 58 s8).bind fun s9 =>
  (parseNum2Item s9).bind fun (sec, s10) =>
  if s10.isEmpty then buildDateTime y mo d h mi sec else Option.none

/-- The `Timestamp` wrapper of `field_types.rs`. -/
structure Timestamp where
  toNaive : NaiveDateTime
deriving Repr, DecidableEq

/-- `impl FromSql for Timestamp`: parse a `&str`, then
`NaiveDateTime::parse_from_str` with the format chosen by `s.len() == 14`. -/
def timestampFromSql : Parser Timestamp :=
  pcontext ("Timestamp in yyyymmddhhmmss or yyyy-mm-dd hh:mm::ss format")
    (pmapRes strFromSql fun bs =>
      (if bs.length = 14 then parseCompactFmt bs else parseSpacedFmt bs).map
        Timestamp.mk)

/-! ## PageRestrictionsOld (`field_types.rs`) -/

/-- Split a byte list on a separator byte, keeping empty pieces, like Rust's
`str::split` with a `char` pattern (the separators here are ASCII, so byte
and character splitting agree on valid UTF-8). -/
def splitOnB (sep : Byte) (s : List Byte) : List (List Byte) :=
  s.foldr
    (fun b acc =>
      if b = sep then [] :: acc
      else
        match acc with
        | cur :: rest => (b :: cur) :: rest
        | [] => [[b]])
    [[]]

/-- Rust `rsplitn(2, sep)`: the piece after the last separator, and, when a
separator occurs, the rest of the input before it. -/
def rsplitOnce (sep : Byte) (s : List Byte) : List Byte × Option (List Byte) :=
  let tailRev := s.reverse.takeWhile fun b => b ≠ sep
  if tailRev.length = s.length then (s, Option.none)
  else (tailRev.reverse, some (s.take (s.length - tailRev.length - 1)))

/-- One `restriction` of `PageRestrictionsOld::from_sql`'s closure: split the
part on the last `=`; the right side, split on `,`, gives the levels; the
left side, when present, is the action, and otherwise `PageAction::All`.
(The `ok_or` on the first `rsplitn` item can never fire, so the `Result` is
not modelled.) -/
def parseRestriction (part : List Byte) : PageAction × List ProtectionLevel :=
  let (lvl, act) := rsplitOnce 61 part
  ((act.map pageActionOfBytes).getD .All, (splitOnB 44 lvl).map protectionLevelOfBytes)

/-- Rust `derive(Ord)` order of `PageAction`: declaration order, `Other`
compared lexicographically on its string. -/
def PageAction.idx : PageAction → Nat
  | .Edit => 0
  | .Move => 1
  | .Reply => 2
  | .Upload => 3
  | .All => 4
  | .Other _ => 5

/-- Lexicographic strict order on byte lists (the `Ord` of `&str`). -/
def bytesLt : List Byte → List Byte → Bool
  | [], [] => false
  | [], _ :: _ => true
  | _ :: _, [] => false
  | a :: as_, b :: bs_ => if a < b then true else if a = b then bytesLt as_ bs_ else false

/-- Strict order on `PageAction` per Rust's derived `Ord`. -/
def PageAction.ltB (a b : PageAction) : Bool :=
  match a, b with
  | .Other x, .Other y => bytesLt x y
  | _, _ => a.idx < b.idx

/-- `BTreeMap` content as a key-sorted association list; `insert` replaces
the value at an equal key, so the later entry wins. -/
def btreeInsert (k : PageAction) (v : List ProtectionLevel) :
    List (PageAction × List ProtectionLevel) → List (PageAction × List ProtectionLevel)
  | [] => [(k, v)]
  | (k', v') :: rest =>
    if PageAction.ltB k k' then (k, v) :: (k', v') :: rest
    else if k = k' then (k, v) :: rest
    else (k', v') :: btreeInsert k v rest

/-- The contents of a `PageRestrictionsOld` map, as its ordered entry list. -/
abbrev PageRestrictionsOld := List (PageAction × List ProtectionLevel)

/-- The pure part of `PageRestrictionsOld::from_sql`: split the payload on
`:`, drop empty parts, parse each part, and collect into a `BTreeMap`. -/
def pageRestrictionsOldOfBytes (contents : List Byte) : PageRestrictionsOld :=
  (((splitOnB 58 contents).filter fun p => !p.isEmpty).map parseRestriction).foldl
    (fun m kv => btreeInsert kv.1 kv.2 m) []

/-- `impl FromSql for PageRestrictionsOld` (the closure always returns `Ok`). -/
def pageRestrictionsOldFromSql : Parser PageRestrictionsOld :=
  pcontext ("PageRestrictionsOld")
    (pmapRes strFromSql fun bs => some (pageRestrictionsOldOfBytes bs))

/-! ## Floats and `NotNan` (`from_sql.rs`)

`f64::from_sql` runs `nom::number::streaming::recognize_float` and feeds the
recognized bytes to Rust's `str::parse::<f64>`; `NotNan::<f64>::from_sql`
maps the result through `NotNan::new_unchecked`.  The claim under study only
concerns NaN-ness, so the value of a parsed Rust float is modelled as its
NaN classification, with `str::parse` modelled faithfully at that
granularity: it accepts an optional sign followed by either a NaN spelling
(case-insensitive `nan`, the only inputs parsing to NaN), an infinity
spelling, or a decimal/scientific literal (which rounds to a finite value or
an infinity, never NaN). -/

/-- A sign byte, `+` or `-` (`alt((char('+'), char('-')))`). -/
def psign : Parser Byte := palt (pchar 43) (pchar 45)

/-- The skeleton recognized by `nom` 7's `recognize_float`:
`sign? (digit1 ('.' digit1?)? | '.' digit1) ([eE] sign? cut(digit1))?`. -/
def floatSkeleton : Parser Unit :=
  pmap
    (pseq (popt psign)
      (pseq
        (palt
          (pmap (pseq pdigit1 (popt (pseq (pchar 46) (popt pdigit1)))) fun _ => ())
          (pmap (pseq (pchar 46) pdigit1) fun _ => ()))
        (popt (pseq (palt (pchar 101) (pchar 69))
          (pseq (popt psign) (pcut pdigit1))))))
    fun _ => ()

/-- `nom::number::streaming::recognize_float`. -/
def recognizeFloat : Parser (List Byte) := precognize floatSkeleton

/-- A Rust `f64` value, modelled by its NaN classification only. -/
structure RustF64 where
  isNan : Bool
deriving Repr, DecidableEq

/-- ASCII lowercasing, for Rust's case-insensitive float spellings. -/
def toLowerB (b : Byte) : Byte := if 65 ≤ b && b ≤ 90 then b + 32 else b

/-- Strip one leading sign byte. -/
def stripSign (s : List Byte) : List Byte :=
  match s with
  | b :: r => if b = 43 || b = 45 then r else s
  | [] => []

/-- The body spells NaN (case-insensitive), the only `str::parse::<f64>`
inputs whose value is NaN. -/
def isNanSpelling (s : List Byte) : Bool :=
  (stripSign s).map toLowerB = strB ("nan")

/-- The body spells an infinity (case-insensitive). -/
def isInfSpelling (s : List Byte) : Bool :=
  (stripSign s).map toLowerB = strB ("inf") ||
  (stripSign s).map toLowerB = strB ("infinity")

/-- A decimal or scientific literal as accepted by Rust's float grammar
(after the sign): `digit* ('.' digit*)?` with at least one mantissa digit,
then optionally `[eE] sign? digit+`. -/
def validDecimalBody (s : List Byte) : Bool :=
  let ip := s.takeWhile isDigitB
  let r1 := s.dropWhile isDigitB
  let (fp, r2) :=
    match r1 with
    | 46 :: r => (r.takeWhile isDigitB, r.dropWhile isDigitB)
    | _ => ([], r1)
  if ip.isEmpty && fp.isEmpty then false
  else
    match r2 with
    | [] => true
    | e :: r3 =>
      if e = 101 || e = 69 then
        let r4 := stripSign r3
        !r4.isEmpty && r4.all isDigitB
      else false

/-- Rust `str::parse::<f64>`, at NaN granularity. -/
def rustParseF64 (s : List Byte) : Option RustF64 :=
  if s.isEmpty then Option.none
  else if isNanSpelling s then some ⟨true⟩
  else if isInfSpelling s then some ⟨false⟩
  else if validDecimalBody (stripSign s) then some ⟨false⟩
  else Option.none

/-- `impl FromSql for f64`: `map_res(recognize_float, |num| ...parse())`. -/
def f64FromSql : Parser RustF64 :=
  pcontext ("number (f64)")
    (pmapRes recognizeFloat fun bs =>
      if utf8Valid bs then rustParseF64 bs else Option.none)

/-- `impl FromSql for NotNan<f64>`:
`map(<f64>::from_sql, |float| unsafe { NotNan::new_unchecked(float) })` —
the wrapping is unchecked, so the carried value is returned as is. -/
def notNanF64FromSql : Parser RustF64 :=
  pcontext ("number (NotNan<f64>)") (pmap f64FromSql fun v => v)

/-! ## A row schema (`schemas.rs`)

`impl_row_from_sql!` expands, for every row type, to the same tuple parser:
`context(row label, preceded(char('('), terminated(cut(map(tuple((...))), map
into struct)), char(')'))))` where each field parser is
`terminated(context(field label, <Type>::from_sql), opt(char(',')))`.
The `babel` table row is embedded as a concrete instance of this shape. -/

/-- The `user_id` wrapper (`impl_wrapper! { UserId: u32 }`). -/
structure UserId where
  val : Nat
deriving Repr, DecidableEq

/-- `impl FromSql for UserId`: `map(<u32>::from_sql, UserId)`. -/
def userIdFromSql : Parser UserId :=
  pcontext ("UserId") (pmap u32FromSql UserId.mk)

/-- A row of the `babel` table: `user: UserId, lang: &str, level: &str`. -/
structure Babel where
  user : UserId
  lang : List Byte
  level : List Byte
deriving Repr, DecidableEq

/-- One field of a row tuple as produced by `impl_row_from_sql!`:
`terminated(context("the field …", <T>::from_sql), opt(char(',')))`.
The comma after every field — including the last — is `opt`. -/
def rowField (label : String) (p : Parser α) : Parser α :=
  pterminated (pcontext label p) (popt (pchar 44))

/-- `impl FromSqlTuple for Babel`, the expansion of `impl_row_from_sql!`
for the `babel` table. -/
def babelFromSqlTuple : Parser Babel :=
  pcontext ("row in babel table")
    (ppreceded (pchar 40)
      (pterminated
        (pcut
          (pmap
            (pseq (rowField ("the field user") userIdFromSql)
              (pseq (rowField ("the field lang") strFromSql)
                (rowField ("the field level") strFromSql)))
            fun t => ⟨t.1, t.2.1, t.2.2⟩))
        (pchar 41)))

/-! ## The insertion-stream driver (`lib.rs`) -/

/-- `bstr`'s `find`: index of the first occurrence of `pat` as a contiguous
subsequence. -/
def findSubstr (pat : List Byte) : List Byte → Option Nat
  | [] => if pat.isEmpty then some 0 else Option.none
  | b :: r =>
    if pat.isPrefixOf (b :: r) then some 0
    else (findSubstr pat r).map (· + 1)

/-- A table-name byte: `b == b'_' || b.is_ascii_lowercase()`. -/
def isNameB (b : Byte) : Bool := b = 95 || (97 ≤ b && b ≤ 122)

/-- The statement-head branch of the separator in `iterate_sql_insertions`:
`recognize(tuple((opt(multispace0), opt(tag(";")), opt(multispace0),
tuple((tag("INSERT INTO \x60"), take_while(name byte), tag("\x60 VALUES "))))))`. -/
def stmtHeadParser : Parser (List Byte) :=
  precognize
    (pseq (popt pmultispace0)
      (pseq (popt (ptag (strB (";"))))
        (pseq (popt pmultispace0)
          (pseq (ptag (strB ("INSERT INTO `")))
            (pseq (ptakeWhile isNameB) (ptag (strB ("` VALUES "))))))))

/-- The separator of `iterate_sql_insertions`: a statement head or a `,`. -/
def sepParser : Parser (List Byte) :=
  palt stmtHeadParser (ptag (strB (",")))

/-- One step of the iterator: `preceded(separator, from_sql_tuple)`. -/
def nextRowParser (p : Parser ρ) : Parser ρ := ppreceded sepParser p

/-- `nom::combinator::iterator` driving `nextRowParser`: repeatedly apply the
parser, collecting values; on any `Err` stop without advancing past the
failed attempt, returning the rows and the remaining input.  The fuel
argument only bounds the number of iterations for termination; every
successful step of the insertion stream consumes at least the separator, so
with fuel `input length + 1` the fuel never runs out. -/
def iterRows (p : Parser ρ) : Nat → List Byte → List ρ × List Byte
  | 0, s => ([], s)
  | fuel + 1, s =>
    match p s with
    | .ok rest v =>
      let out := iterRows p fuel rest
      (v :: out.1, out.2)
    | _ => ([], s)

/-- The iterator made from `nextRowParser`, run to exhaustion: the yielded
rows and the remaining unconsumed input. -/
def runIterator (p : Parser ρ) (s : List Byte) : List ρ × List Byte :=
  iterRows (nextRowParser p) (s.length + 1) s

/-- `iterate_sql_insertions`: slice the input at the first `INSERT INTO`
(the `expect` panic, whose message is the `Err` payload here, when there is
none), then iterate `preceded(separator, from_sql_tuple)`. -/
def iterateSqlInsertions (p : Parser ρ) (sql : List Byte) :
    Except String (List ρ × List Byte) :=
  match findSubstr (strB ("INSERT INTO")) sql with
  | some i => .ok (runIterator p (sql.drop i))
  | none => .error ("INSERT INTO statement")

/-- The comma-separated continuation of an insertion stream: each tuple is
preceded by a `,`; the stream ends with the unparsed tail. -/
def commaJoin (ts : List (List Byte)) (tail : List Byte) : List Byte :=
  ts.foldr (fun t acc => 44 :: (t ++ acc)) tail

/-- The statement head `INSERT INTO \x60name\x60 VALUES ` for a given table
name. -/
def headBytes (name : List Byte) : List Byte :=
  strB ("INSERT INTO `") ++ name ++ strB ("` VALUES ")

/-! ## Basic list lemmas -/

theorem takeWhile_append_stop {p : Byte → Bool} :
    ∀ {xs : List Byte}, (∀ b ∈ xs, p b = true) → ∀ {y : Byte}, p y = false →
      ∀ (ys : List Byte), (xs ++ y :: ys).takeWhile p = xs := by
  intro xs
  induction xs with
  | nil => intro _ y hy ys; simp [List.takeWhile, hy]
  | cons a xs ih =>
    intro h y hy ys
    have ha : p a = true := h a (by simp)
    simp [List.takeWhile, ha, ih (fun b hb => h b (by simp [hb])) hy ys]

theorem dropWhile_append_stop {p : Byte → Bool} :
    ∀ {xs : List Byte}, (∀ b ∈ xs, p b = true) → ∀ {y : Byte}, p y = false →
      ∀ (ys : List Byte), (xs ++ y :: ys).dropWhile p = y :: ys := by
  intro xs
  induction xs with
  | nil => intro _ y hy ys; simp [List.dropWhile, hy]
  | cons a xs ih =>
    intro h y hy ys
    have ha : p a = true := h a (by simp)
    simp [List.dropWhile, ha, ih (fun b hb => h b (by simp [hb])) hy ys]

theorem isPrefixOf_app_self : ∀ (t u : List Byte), t.isPrefixOf (t ++ u) = true := by
  intro t u
  induction t with
  | nil => simp [List.isPrefixOf]
  | cons a t ih => simp [List.isPrefixOf, ih]

theorem take_app_self (t u : List Byte) : (t ++ u).take t.length = t := by
  simp

theorem drop_app_self (t u : List Byte) : (t ++ u).drop t.length = u := by
  simp

/-! ## Step lemmas for the primitive parsers -/

theorem ptag_app (t u : List Byte) : ptag t (t ++ u) = .ok u t := by
  simp [ptag, isPrefixOf_app_self, drop_app_self]

theorem ptag_err_of_head_ne {a b : Byte} (h : a ≠ b) (t s : List Byte) :
    ptag (a :: t) (b :: s) = .err := by
  have h2 : b ≠ a := fun hc => h hc.symm
  simp [ptag, List.isPrefixOf, h, h2]

theorem pchar_cons_self (c : Byte) (s : List Byte) : pchar c (c :: s) = .ok s c := by
  simp [pchar]

theorem pchar_cons_ne {b c : Byte} (h : b ≠ c) (s : List Byte) :
    pchar c (b :: s) = .err := by
  simp [pchar, h]

theorem pmultispace0_head_not_ws {b : Byte} (h : isWsB b = false) (s : List Byte) :
    pmultispace0 (b :: s) = .ok (b :: s) [] := by
  simp [pmultispace0, List.takeWhile, List.dropWhile, h]

theorem pdigit1_app {ds : List Byte} (hne : ds ≠ []) (hds : ∀ b ∈ ds, isDigitB b = true)
    {y : Byte} (hy : isDigitB y = false) (s : List Byte) :
    pdigit1 (ds ++ y :: s) = .ok (y :: s) ds := by
  simp [pdigit1, takeWhile_append_stop hds hy, dropWhile_append_stop hds hy, hne]

theorem pisNot_app {stop : List Byte} {ds : List Byte}
    (hds : ∀ b ∈ ds, stop.contains b = false)
    {y : Byte} (hy : stop.contains y = true) (s : List Byte) :
    pisNot stop (ds ++ y :: s) = (if ds.isEmpty then .err else .ok (y :: s) ds) := by
  have h1 : ∀ b ∈ ds, (fun b => !stop.contains b) b = true := by
    intro b hb
    have := hds b hb
    simp only [this, Bool.not_false]
  have h2 : (fun b => !stop.contains b) y = false := by
    simp only [hy, Bool.not_true]
  unfold pisNot
  rw [takeWhile_append_stop h1 h2, dropWhile_append_stop h1 h2]
  rw [if_neg (by simp)]

theorem ptakeWhile_app {p : Byte → Bool} {ds : List Byte}
    (hds : ∀ b ∈ ds, p b = true) {y : Byte} (hy : p y = false) (s : List Byte) :
    ptakeWhile p (ds ++ y :: s) = .ok (y :: s) ds := by
  simp [ptakeWhile, takeWhile_append_stop hds hy, dropWhile_append_stop hds hy]

/-! ## Inversion lemmas for the combinators -/

theorem pmap_ok {p : Parser α} {f : α → β} {s r : List Byte} {v : β}
    (h : pmap p f s = .ok r v) : ∃ a, p s = .ok r a ∧ v = f a := by
  unfold pmap PResult.andThen at h
  cases hp : p s <;> rw [hp] at h
  case ok rest a => cases h; exact ⟨a, rfl, rfl⟩
  all_goals exact nomatch h

theorem pmapRes_ok {p : Parser α} {f : α → Option β} {s r : List Byte} {v : β}
    (h : pmapRes p f s = .ok r v) : ∃ a, p s = .ok r a ∧ f a = some v := by
  unfold pmapRes at h
  cases hp : p s <;> rw [hp] at h <;> simp only [PResult.andThen] at h
  case ok rest a =>
    cases hf : f a <;> rw [hf] at h
    · exact nomatch h
    · cases h; exact ⟨a, rfl, by rw [hf]⟩
  all_goals exact nomatch h

theorem pseq_ok {p : Parser α} {q : Parser β} {s r : List Byte} {v : α × β}
    (h : pseq p q s = .ok r v) :
    ∃ m, p s = .ok m v.1 ∧ q m = .ok r v.2 := by
  unfold pseq at h
  cases hp : p s <;> rw [hp] at h <;> simp only [PResult.andThen] at h
  case ok m a =>
    cases hq : q m <;> rw [hq] at h <;> simp only [PResult.andThen] at h
    case ok r2 b => cases h; exact ⟨m, rfl, hq⟩
    all_goals exact nomatch h
  all_goals exact nomatch h

theorem popt_ok {p : Parser α} {s r : List Byte} {v : Option α}
    (h : popt p s = .ok r v) :
    (∃ a, p s = .ok r a ∧ v = some a) ∨ (p s = .err ∧ r = s ∧ v = Option.none) := by
  unfold popt at h
  cases hp : p s <;> rw [hp] at h
  case ok rest a => cases h; exact Or.inl ⟨a, rfl, rfl⟩
  case err => cases h; exact Or.inr ⟨rfl, rfl, rfl⟩
  all_goals exact nomatch h

theorem palt_ok {p q : Parser α} {s r : List Byte} {v : α}
    (h : palt p q s = .ok r v) :
    p s = .ok r v ∨ (p s = .err ∧ q s = .ok r v) := by
  unfold palt at h
  cases hp : p s <;> rw [hp] at h
  case ok => cases h; exact Or.inl rfl
  case err => exact Or.inr ⟨rfl, h⟩
  all_goals exact nomatch h

theorem precognize_ok {p : Parser α} {s r c : List Byte}
    (h : precognize p s = .ok r c) :
    ∃ v, p s = .ok r v ∧ c = s.take (s.length - r.length) := by
  unfold precognize PResult.andThen at h
  cases hp : p s <;> rw [hp] at h
  case ok rest a => cases h; exact ⟨a, rfl, rfl⟩
  all_goals exact nomatch h

theorem pchar_ok {c : Byte} {s r : List Byte} {v : Byte}
    (h : pchar c s = .ok r v) : s = c :: r ∧ v = c := by
  unfold pchar at h
  cases s with
  | nil => exact absurd h (by simp)
  | cons b bs =>
    by_cases hb : b = c
    · simp [hb] at h; exact ⟨by rw [hb, h.1], h.2.symm⟩
    · simp [hb] at h

/-! ## Byte values of the driver's fixed strings -/

theorem strB_semi : strB (";") = [59] := by decide

theorem strB_comma : strB (",") = [44] := by decide

theorem strB_insertTag :
    strB ("INSERT INTO `") = [73, 78, 83, 69, 82, 84, 32, 73, 78, 84, 79, 32, 96] := by
  decide

theorem strB_valuesTag :
    strB ("` VALUES ") = [96, 32, 86, 65, 76, 85, 69, 83, 32] := by decide

theorem strB_insertInto :
    strB ("INSERT INTO") = [73, 78, 83, 69, 82, 84, 32, 73, 78, 84, 79] := by decide

theorem ptag_cons_self (a : Byte) (s : List Byte) : ptag [a] (a :: s) = .ok s [a] :=
  ptag_app [a] s

theorem ptag_insertTag (x : List Byte) :
    ptag [73, 78, 83, 69, 82, 84, 32, 73, 78, 84, 79, 32, 96]
      (73 :: 78 :: 83 :: 69 :: 82 :: 84 :: 32 :: 73 :: 78 :: 84 :: 79 :: 32 :: 96 :: x) =
      .ok x [73, 78, 83, 69, 82, 84, 32, 73, 78, 84, 79, 32, 96] :=
  ptag_app _ x

theorem ptag_valuesTag (x : List Byte) :
    ptag [96, 32, 86, 65, 76, 85, 69, 83, 32]
      (96 :: 32 :: 86 :: 65 :: 76 :: 85 :: 69 :: 83 :: 32 :: x) =
      .ok x [96, 32, 86, 65, 76, 85, 69, 83, 32] :=
  ptag_app _ x

theorem pdigit1_ok {s r : List Byte} {v : List Byte}
    (h : pdigit1 s = .ok r v) :
    v = s.takeWhile isDigitB ∧ r = s.dropWhile isDigitB ∧ v ≠ [] := by
  unfold pdigit1 at h
  by_cases h1 : (s.dropWhile isDigitB).isEmpty
  · simp [h1] at h
  · by_cases h2 : (s.takeWhile isDigitB).isEmpty
    · simp [h1, h2] at h
    · simp [h1, h2] at h
      exact ⟨h.2.symm, h.1.symm, by
        intro hv
        rw [h.2, hv] at h2
        simp at h2⟩

/-! ## Behaviour of the insertion-stream separator -/

theorem sep_comma (s : List Byte) : sepParser (44 :: s) = .ok s [44] := by
  have hms : pmultispace0 (44 :: s) = .ok (44 :: s) [] :=
    pmultispace0_head_not_ws (by decide) s
  have h59 : ptag (strB (";")) (44 :: s) = .err := by
    rw [strB_semi]; exact ptag_err_of_head_ne (by decide) [] s
  have h73 : ptag (strB ("INSERT INTO `")) (44 :: s) = .err := by
    rw [strB_insertTag]; exact ptag_err_of_head_ne (by decide) _ s
  have hstmt : stmtHeadParser (44 :: s) = .err := by
    simp only [stmtHeadParser, precognize, pseq, popt, PResult.andThen, hms, h59, h73]
  simp only [sepParser, palt, hstmt, strB_comma, ptag_cons_self]

theorem sep_trailer (junk : List Byte) :
    sepParser (59 :: 10 :: 47 :: 42 :: junk) = .err := by
  have hms : pmultispace0 (59 :: 10 :: 47 :: 42 :: junk) =
      .ok (59 :: 10 :: 47 :: 42 :: junk) [] :=
    pmultispace0_head_not_ws (by decide) _
  have h59 : ptag (strB (";")) (59 :: 10 :: 47 :: 42 :: junk) =
      .ok (10 :: 47 :: 42 :: junk) [59] := by
    rw [strB_semi]; exact ptag_cons_self 59 _
  have hms2 : pmultispace0 (10 :: 47 :: 42 :: junk) = .ok (47 :: 42 :: junk) [10] := by
    simp [pmultispace0, List.takeWhile, List.dropWhile, isWsB]
  have h73 : ptag (strB ("INSERT INTO `")) (47 :: 42 :: junk) = .err := by
    rw [strB_insertTag]; exact ptag_err_of_head_ne (by decide) _ _
  have hstmt : stmtHeadParser (59 :: 10 :: 47 :: 42 :: junk) = .err := by
    simp only [stmtHeadParser, precognize, pseq, popt, PResult.andThen, hms, h59, hms2, h73]
  have h44 : ptag (strB (",")) (59 :: 10 :: 47 :: 42 :: junk) = .err := by
    rw [strB_comma]; exact ptag_err_of_head_ne (by decide) [] _
  simp only [sepParser, palt, hstmt, h44]

theorem sep_head (name rest : List Byte) (h : ∀ b ∈ name, isNameB b = true) :
    sepParser (headBytes name ++ rest) =
      .ok rest ((headBytes name ++ rest).take
        ((headBytes name ++ rest).length - rest.length)) := by
  have hshape : headBytes name ++ rest =
      73 :: 78 :: 83 :: 69 :: 82 :: 84 :: 32 :: 73 :: 78 :: 84 :: 79 :: 32 :: 96 ::
        (name ++ (96 :: 32 :: 86 :: 65 :: 76 :: 85 :: 69 :: 83 :: 32 :: rest)) := by
    simp [headBytes, strB_insertTag, strB_valuesTag]
  rw [hshape]
  have hms : pmultispace0 (73 :: 78 :: 83 :: 69 :: 82 :: 84 :: 32 :: 73 :: 78 :: 84 ::
      79 :: 32 :: 96 :: (name ++ (96 :: 32 :: 86 :: 65 :: 76 :: 85 :: 69 :: 83 :: 32 :: rest))) =
      .ok (73 :: 78 :: 83 :: 69 :: 82 :: 84 :: 32 :: 73 :: 78 :: 84 :: 79 :: 32 :: 96 ::
        (name ++ (96 :: 32 :: 86 :: 65 :: 76 :: 85 :: 69 :: 83 :: 32 :: rest))) [] :=
    pmultispace0_head_not_ws (by decide) _
  have h59 : ptag (strB (";")) (73 :: 78 :: 83 :: 69 :: 82 :: 84 :: 32 :: 73 :: 78 ::
      84 :: 79 :: 32 :: 96 ::
        (name ++ (96 :: 32 :: 86 :: 65 :: 76 :: 85 :: 69 :: 83 :: 32 :: rest))) = .err := by
    rw [strB_semi]; exact ptag_err_of_head_ne (by decide) _ _
  have htw : ptakeWhile isNameB
      (name ++ (96 :: 32 :: 86 :: 65 :: 76 :: 85 :: 69 :: 83 :: 32 :: rest)) =
      .ok (96 :: 32 :: 86 :: 65 :: 76 :: 85 :: 69 :: 83 :: 32 :: rest) name :=
    ptakeWhile_app h (by decide) _
  simp only [sepParser, palt, stmtHeadParser, precognize, pseq, popt, PResult.andThen,
    hms, h59, strB_insertTag, strB_valuesTag, ptag_insertTag, htw, ptag_valuesTag]

theorem sep_head_badname (pre : List Byte) (c : Byte) (rest : List Byte)
    (hp : ∀ b ∈ pre, isNameB b = true) (hc : isNameB c = false) (hc2 : c ≠ 96) :
    sepParser (strB ("INSERT INTO `") ++ (pre ++ c :: rest)) = .err := by
  have hshape : strB ("INSERT INTO `") ++ (pre ++ c :: rest) =
      73 :: 78 :: 83 :: 69 :: 82 :: 84 :: 32 :: 73 :: 78 :: 84 :: 79 :: 32 :: 96 ::
        (pre ++ c :: rest) := by
    simp [strB_insertTag]
  rw [hshape]
  have hms : pmultispace0 (73 :: 78 :: 83 :: 69 :: 82 :: 84 :: 32 :: 73 :: 78 :: 84 ::
      79 :: 32 :: 96 :: (pre ++ c :: rest)) =
      .ok (73 :: 78 :: 83 :: 69 :: 82 :: 84 :: 32 :: 73 :: 78 :: 84 :: 79 :: 32 :: 96 ::
        (pre ++ c :: rest)) [] :=
    pmultispace0_head_not_ws (by decide) _
  have h59 : ptag (strB (";")) (73 :: 78 :: 83 :: 69 :: 82 :: 84 :: 32 :: 73 :: 78 ::
      84 :: 79 :: 32 :: 96 :: (pre ++ c :: rest)) = .err := by
    rw [strB_semi]; exact ptag_err_of_head_ne (by decide) _ _
  have htw : ptakeWhile isNameB (pre ++ c :: rest) = .ok (c :: rest) pre :=
    ptakeWhile_app hp hc _
  have htv : ptag (strB ("` VALUES ")) (c :: rest) = .err := by
    rw [strB_valuesTag]
    exact ptag_err_of_head_ne (fun he => hc2 he.symm) _ _
  have hstmt : stmtHeadParser (73 :: 78 :: 83 :: 69 :: 82 :: 84 :: 32 :: 73 :: 78 ::
      84 :: 79 :: 32 :: 96 :: (pre ++ c :: rest)) = .err := by
    simp only [stmtHeadParser, precognize, pseq, popt, PResult.andThen,
      hms, h59, strB_insertTag, ptag_insertTag, htw, htv]
  have h44 : ptag (strB (",")) (73 :: 78 :: 83 :: 69 :: 82 :: 84 :: 32 :: 73 :: 78 ::
      84 :: 79 :: 32 :: 96 :: (pre ++ c :: rest)) = .err := by
    rw [strB_comma]; exact ptag_err_of_head_ne (by decide) [] _
  simp only [sepParser, palt, hstmt, h44]

/-! ## Behaviour of the iterator -/

theorem nextRow_ok {ρ : Type} {P : Parser ρ} {s m r : List Byte} {v : List Byte} {w : ρ}
    (hsep : sepParser s = .ok m v) (hP : P m = .ok r w) :
    nextRowParser P s = .ok r w := by
  simp only [nextRowParser, ppreceded, pmap, pseq, PResult.andThen, hsep, hP]

theorem nextRow_err {ρ : Type} {P : Parser ρ} {s : List Byte}
    (hsep : sepParser s = .err) : nextRowParser P s = .err := by
  simp only [nextRowParser, ppreceded, pmap, pseq, PResult.andThen, hsep]

theorem iterRows_succ {ρ : Type} (p : Parser ρ) (fuel : Nat) (s : List Byte) :
    iterRows p (fuel + 1) s =
      match p s with
      | .ok rest v => (v :: (iterRows p fuel rest).1, (iterRows p fuel rest).2)
      | _ => ([], s) := rfl

theorem commaJoin_nil (tail : List Byte) : commaJoin [] tail = tail := rfl

theorem commaJoin_cons (t : List Byte) (ts : List (List Byte)) (tail : List Byte) :
    commaJoin (t :: ts) tail = 44 :: (t ++ commaJoin ts tail) := rfl

theorem commaJoin_length_ge (ts : List (List Byte)) (tail : List Byte) :
    ts.length + tail.length ≤ (commaJoin ts tail).length := by
  induction ts with
  | nil => simp [commaJoin_nil]
  | cons t ts ih =>
    rw [commaJoin_cons]
    simp only [List.length_cons, List.length_append]
    omega

theorem iterRows_commaJoin {ρ : Type} {P : Parser ρ} {f : List Byte → ρ} :
    ∀ (ts : List (List Byte)) (fuel : Nat) (tail : List Byte),
      (∀ t ∈ ts, ∀ r, P (t ++ r) = .ok r (f t)) →
      sepParser tail = .err →
      ts.length + 1 ≤ fuel →
      iterRows (nextRowParser P) fuel (commaJoin ts tail) = (ts.map f, tail) := by
  intro ts
  induction ts with
  | nil =>
    intro fuel tail _ htail hfuel
    cases fuel with
    | zero => omega
    | succ k =>
      simp only [commaJoin_nil, iterRows, nextRow_err htail, List.map_nil]
  | cons t ts ih =>
    intro fuel tail hts htail hfuel
    cases fuel with
    | zero => simp at hfuel
    | succ k =>
      have hstep : nextRowParser P (commaJoin (t :: ts) tail) =
          .ok (commaJoin ts tail) (f t) := by
        rw [commaJoin_cons]
        exact nextRow_ok (sep_comma _) (hts t (by simp) _)
      have hfuel2 : ts.length + 1 ≤ k := by
        simp only [List.length_cons] at hfuel
        omega
      simp only [iterRows, hstep,
        ih k tail (fun u hu r => hts u (by simp [hu]) r) htail hfuel2, List.map_cons]

/-! ## `find` of the `INSERT INTO` marker -/

theorem findSubstr_some0 {pat s : List Byte} (h : pat.isPrefixOf s = true) :
    findSubstr pat s = some 0 := by
  cases s with
  | nil =>
    cases pat with
    | nil => rfl
    | cons a t => simp [List.isPrefixOf] at h
  | cons b r =>
    unfold findSubstr
    rw [if_pos h]

theorem findSubstr_none_of {pat : List Byte} (hpat : pat ≠ []) :
    ∀ s : List Byte, (∀ i, pat.isPrefixOf (s.drop i) = false) → findSubstr pat s = none := by
  intro s
  induction s with
  | nil =>
    intro _
    cases pat with
    | nil => exact absurd rfl hpat
    | cons a t => simp [findSubstr]
  | cons b r ih =>
    intro h
    have h0 : pat.isPrefixOf (b :: r) = false := by simpa using h 0
    unfold findSubstr
    rw [if_neg (by simp [h0])]
    rw [ih fun i => by simpa [List.drop_succ_cons] using h (i + 1)]
    rfl

theorem findSubstr_none_imp {pat : List Byte} (hpat : pat ≠ []) :
    ∀ s, findSubstr pat s = none → ∀ i, pat.isPrefixOf (s.drop i) = false := by
  intro s
  induction s with
  | nil =>
    intro _ i
    rw [List.drop_nil]
    cases pat with
    | nil => exact absurd rfl hpat
    | cons a t => simp [List.isPrefixOf]
  | cons b r ih =>
    intro hf i
    unfold findSubstr at hf
    by_cases hp : pat.isPrefixOf (b :: r) = true
    · rw [if_pos hp] at hf
      exact nomatch hf
    · have hf2 : findSubstr pat r = none := by
        rw [if_neg (by simp [hp])] at hf
        cases hr : findSubstr pat r with
        | none => rfl
        | some n => rw [hr] at hf; simp at hf
      cases i with
      | zero =>
        cases hx : pat.isPrefixOf (b :: r) with
        | true => exact absurd hx hp
        | false => simpa using hx
      | succ i => simpa [List.drop_succ_cons] using ih hf2 i

/-! ## The raw-string parser on a quote-free interior -/

theorem bytesFromSql_app {bs : List Byte} (hq : (39 : Byte) ∉ bs) (rest : List Byte) :
    bytesFromSql (39 :: (bs ++ 39 :: rest)) = .ok rest bs := by
  have hstop : [qB].contains (39 : Byte) = true := by decide
  have htag2 : ptag [qB] (39 :: rest) = .ok rest [qB] := ptag_cons_self 39 rest
  have hcont : ∀ b ∈ bs, [qB].contains b = false := by
    intro b hb
    have hne : (39 : Byte) ≠ b := fun he => hq (he ▸ hb)
    simpa [qB] using fun he => hne he.symm
  have hpis := @pisNot_app [qB] bs hcont 39 hstop rest
  cases bs with
  | nil =>
    simp only [List.nil_append] at hpis ⊢
    simp only [List.isEmpty_nil, if_pos] at hpis
    have htag1 : ptag [qB] (39 :: 39 :: rest) = .ok (39 :: rest) [qB] :=
      ptag_cons_self 39 _
    simp only [bytesFromSql, pcontext, ppreceded, pterminated, pmap, pseq, popt,
      PResult.andThen, htag1, hpis, htag2, Option.getD]
  | cons b bt =>
    simp only [List.isEmpty_cons, Bool.false_eq_true, if_false] at hpis
    have htag1 : ptag [qB] (39 :: (b :: bt ++ 39 :: rest)) =
        .ok (b :: bt ++ 39 :: rest) [qB] := ptag_cons_self 39 _
    simp only [bytesFromSql, pcontext, ppreceded, pterminated, pmap, pseq, popt,
      PResult.andThen, htag1, hpis, htag2, Option.getD]

theorem strFromSql_app {bs : List Byte} (hq : (39 : Byte) ∉ bs)
    (hu : utf8Valid bs = true) (rest : List Byte) :
    strFromSql (39 :: (bs ++ 39 :: rest)) = .ok rest bs := by
  simp only [strFromSql, pcontext, pmapRes, PResult.andThen, bytesFromSql_app hq rest,
    hu, if_pos]

theorem strFromSql_app_badUtf8 {bs : List Byte} (hq : (39 : Byte) ∉ bs)
    (hu : utf8Valid bs = false) (rest : List Byte) :
    strFromSql (39 :: (bs ++ 39 :: rest)) = .err := by
  simp only [strFromSql, pcontext, pmapRes, PResult.andThen, bytesFromSql_app hq rest,
    hu, Bool.false_eq_true, if_false]

/-! ## Consumption lemmas: a successful parse returns a suffix of its input -/

theorem append_drop_of_isPrefixOf :
    ∀ {t s : List Byte}, t.isPrefixOf s = true → t ++ s.drop t.length = s := by
  intro t
  induction t with
  | nil => intro s _; simp
  | cons a t ih =>
    intro s h
    cases s with
    | nil => simp [List.isPrefixOf] at h
    | cons b bs =>
      simp only [List.isPrefixOf, Bool.and_eq_true, beq_iff_eq] at h
      simp only [List.cons_append, List.length_cons, List.drop_succ_cons, h.1]
      rw [ih h.2]

theorem ptag_consume {t s r v : List Byte} (h : ptag t s = .ok r v) : s = t ++ r := by
  unfold ptag at h
  by_cases hp : t.isPrefixOf s = true
  · rw [if_pos hp] at h
    cases h
    exact (append_drop_of_isPrefixOf hp).symm
  · rw [if_neg hp] at h
    by_cases hs : s.isPrefixOf t = true
    · rw [if_pos hs] at h; exact nomatch h
    · rw [if_neg hs] at h; exact nomatch h

theorem pchar_consume {c : Byte} {s r : List Byte} {v : Byte}
    (h : pchar c s = .ok r v) : s = c :: r :=
  (pchar_ok h).1

theorem pdigit1_consume {s r v : List Byte} (h : pdigit1 s = .ok r v) :
    s = v ++ r ∧ v ≠ [] := by
  obtain ⟨hv, hr, hne⟩ := pdigit1_ok h
  exact ⟨by rw [hv, hr, List.takeWhile_append_dropWhile], hne⟩

theorem pmap_consume {p : Parser α} {f : α → β}
    (hp : ∀ s r v, p s = .ok r v → ∃ pre, s = pre ++ r) :
    ∀ s r v, pmap p f s = .ok r v → ∃ pre, s = pre ++ r := by
  intro s r v h
  obtain ⟨a, ha, _⟩ := pmap_ok h
  exact hp s r a ha

theorem popt_consume {p : Parser α}
    (hp : ∀ s r v, p s = .ok r v → ∃ pre, s = pre ++ r) :
    ∀ s r v, popt p s = .ok r v → ∃ pre, s = pre ++ r := by
  intro s r v h
  rcases popt_ok h with ⟨a, ha, _⟩ | ⟨_, hr, _⟩
  · exact hp s r a ha
  · exact ⟨[], by rw [hr]; rfl⟩

theorem palt_consume {p q : Parser α}
    (hp : ∀ s r v, p s = .ok r v → ∃ pre, s = pre ++ r)
    (hq : ∀ s r v, q s = .ok r v → ∃ pre, s = pre ++ r) :
    ∀ s r v, palt p q s = .ok r v → ∃ pre, s = pre ++ r := by
  intro s r v h
  rcases palt_ok h with h1 | ⟨_, h2⟩
  · exact hp s r v h1
  · exact hq s r v h2

theorem pseq_consume {p : Parser α} {q : Parser β}
    (hp : ∀ s r v, p s = .ok r v → ∃ pre, s = pre ++ r)
    (hq : ∀ s r v, q s = .ok r v → ∃ pre, s = pre ++ r) :
    ∀ s r v, pseq p q s = .ok r v → ∃ pre, s = pre ++ r := by
  intro s r v h
  obtain ⟨m, hm, hq2⟩ := pseq_ok h
  obtain ⟨pre1, h1⟩ := hp s m v.1 hm
  obtain ⟨pre2, h2⟩ := hq m r v.2 hq2
  exact ⟨pre1 ++ pre2, by rw [h1, h2, List.append_assoc]⟩

theorem pchar_consumes (c : Byte) :
    ∀ s r v, pchar c s = .ok r v → ∃ pre, s = pre ++ r := by
  intro s r v h
  exact ⟨[c], by rw [pchar_consume h]; rfl⟩

theorem pdigit1_consumes :
    ∀ s r v, pdigit1 s = .ok r v → ∃ pre, s = pre ++ r := by
  intro s r v h
  exact ⟨v, (pdigit1_consume h).1⟩

theorem pcut_consumes {p : Parser α}
    (hp : ∀ s r v, p s = .ok r v → ∃ pre, s = pre ++ r) :
    ∀ s r v, pcut p s = .ok r v → ∃ pre, s = pre ++ r := by
  intro s r v h
  unfold pcut at h
  cases hps : p s <;> rw [hps] at h
  case ok => cases h; exact hp s _ _ hps
  all_goals exact nomatch h

/-! ## Further helper lemmas -/

theorem takeWhile_all {p : Byte → Bool} :
    ∀ (l : List Byte), ∀ x ∈ l.takeWhile p, p x = true := by
  intro l
  induction l with
  | nil => intro x hx; simp [List.takeWhile] at hx
  | cons a l ih =>
    intro x hx
    rw [List.takeWhile] at hx
    cases hpa : p a with
    | false => rw [hpa] at hx; simp at hx
    | true =>
      rw [hpa] at hx
      rcases List.mem_cons.mp hx with he | hm
      · rw [he]; exact hpa
      · exact ih x hm

theorem takeWhile_length_eq_iff {p : Byte → Bool} :
    ∀ (l : List Byte), (l.takeWhile p).length = l.length ↔ ∀ b ∈ l, p b = true := by
  intro l
  induction l with
  | nil => simp
  | cons a l ih =>
    rw [List.takeWhile]
    cases hpa : p a with
    | false =>
      simp only [List.length_nil, List.length_cons]
      constructor
      · omega
      · intro h
        exact absurd (h a (by simp)) (by simp [hpa])
    | true =>
      simp only [List.length_cons, Nat.add_right_cancel_iff, ih]
      constructor
      · intro h b hb
        rcases List.mem_cons.mp hb with he | hm
        · rw [he]; exact hpa
        · exact h b hm
      · intro h b hb
        exact h b (by simp [hb])

theorem pageActionOfBytes_ne_All : ∀ bs, pageActionOfBytes bs ≠ .All := by
  intro bs
  unfold pageActionOfBytes
  split_ifs <;> simp

theorem strB_nan : strB ("nan") = [110, 97, 110] := by decide

/-! ## Claim C1: commas inside row tuples

The spec claims the comma between fields is required and a trailing comma is
rejected; the macro `impl_row_from_sql!` instead wraps every field comma in
`opt(...)`, so both are tolerated.  The `babel` row exhibits this. -/

/-- C1 counterexample: a `babel` tuple with a trailing comma before `)` —
which the claim says must fail to parse — parses successfully. -/
theorem babel_trailing_comma_parses :
    babelFromSqlTuple (strB ("(1,'a','b',)")) =
      .ok [] ⟨⟨1⟩, strB ("a"), strB ("b")⟩ := by decide

/-- C1 (amended): in the row tuple parser generated by `impl_row_from_sql!`
the comma after every field is optional (`opt(char(','))`): the canonical
comma-separated tuple parses, and so do a tuple with a trailing comma before
`)` and a tuple with no separating commas at all, all yielding the same row
(shown on the `babel` row type, the embedded instance of the macro). -/
theorem babel_tuple_commas_optional :
    babelFromSqlTuple (strB ("(1,'a','b')")) =
      .ok [] ⟨⟨1⟩, strB ("a"), strB ("b")⟩ ∧
    babelFromSqlTuple (strB ("(1,'a','b',)")) =
      .ok [] ⟨⟨1⟩, strB ("a"), strB ("b")⟩ ∧
    babelFromSqlTuple (strB ("(1'a''b')")) =
      .ok [] ⟨⟨1⟩, strB ("a"), strB ("b")⟩ := by decide

/-! ## Claim C8: the PageRestrictionsOld grammar -/

/-- C8: the four documented `page_restrictions` payloads parse exactly as the
spec's table shows (maps are compared as their ordered entry lists). -/
theorem page_restrictions_old_cases :
    pageRestrictionsOldFromSql (strB ("'edit=autoconfirmed:move=sysop'")) =
      .ok [] [(.Edit, [.Autoconfirmed]), (.Move, [.Sysop])] ∧
    pageRestrictionsOldFromSql (strB ("''")) = .ok [] [] ∧
    pageRestrictionsOldFromSql (strB ("'sysop'")) = .ok [] [(.All, [.Sysop])] ∧
    pageRestrictionsOldFromSql (strB ("'move=:edit='")) =
      .ok [] [(.Edit, [.None]), (.Move, [.None])] := by decide

/-! ## Claim C6: escape sequences in escaped byte strings -/

/-- C6: the nine escape decodings of `impl FromSql for Vec<u8>` are exactly
`\0 \b \t \n \r \Z \\ \' \"` to `NUL, 0x08, TAB, LF, CR, 0x1A, \, ', "`, and
for every byte `x`, parsing the quoted escape `'\x'` yields the single
decoded byte when `x` is in the table and fails otherwise. -/
theorem escape_semantics :
    escDecode 48 = some 0 ∧ escDecode 98 = some 8 ∧ escDecode 116 = some 9 ∧
    escDecode 110 = some 10 ∧ escDecode 114 = some 13 ∧ escDecode 90 = some 26 ∧
    escDecode 92 = some 92 ∧ escDecode 39 = some 39 ∧ escDecode 34 = some 34 ∧
    (∀ x : Fin 256,
      vecU8FromSql [39, 92, x.val, 39] =
        (match escDecode x.val with
         | some d => .ok [] [d]
         | none => .err)) := by decide

/-! ## Claim C2: the streaming invariant

For `N ≥ 1` well-formed tuples the iterator yields the `N` rows in order and
leaves the `;\n/*` trailer unconsumed.  At `N = 0` the claim fails: the
separator parser consumes the statement head, the row parser then fails at
the trailer, and `nom`'s iterator does not advance its input across a failed
attempt, so the remaining input is the whole input, which starts with
`INSERT INTO`, not `;\n/*`. -/

/-- C2 counterexample (the claim's `N = 0` instance): a statement head
followed by zero tuples and the mysqldump trailer yields zero rows, but the
remaining unconsumed input is the entire input and does not begin with
`;\n/*`. -/
theorem iterate_zero_tuples_trailer_not_reached :
    iterateSqlInsertions babelFromSqlTuple
        (strB ("INSERT INTO `babel` VALUES ;\n/*x*/")) =
      .ok ([], strB ("INSERT INTO `babel` VALUES ;\n/*x*/")) ∧
    (strB (";\n/*")).isPrefixOf (strB ("INSERT INTO `babel` VALUES ;\n/*x*/")) =
      false :=
  ⟨rfl, by decide⟩

/-- C2 (amended, `N ≥ 1`): for every row parser `P`, table name in `[a-z_]*`,
and nonempty list of tuples `t :: ts` each of which `P` parses completely
(consuming exactly the tuple, whatever follows), the iterator on
`INSERT INTO \x60name\x60 VALUES t1,…,tN;\n/*…` yields exactly the `N`
parsed rows in input order, and the remaining unconsumed input is the
trailer, beginning with the four bytes `;\n/*`. -/
theorem iterate_yields_rows_then_trailer {ρ : Type} (P : Parser ρ)
    (f : List Byte → ρ) (name t : List Byte) (ts : List (List Byte))
    (junk : List Byte)
    (hname : ∀ b ∈ name, isNameB b = true)
    (hts : ∀ u ∈ t :: ts, ∀ r, P (u ++ r) = .ok r (f u)) :
    iterateSqlInsertions P
        (headBytes name ++ (t ++ commaJoin ts (59 :: 10 :: 47 :: 42 :: junk))) =
      .ok ((t :: ts).map f, 59 :: 10 :: 47 :: 42 :: junk) := by
  have hpre : (strB ("INSERT INTO")).isPrefixOf
      (headBytes name ++ (t ++ commaJoin ts (59 :: 10 :: 47 :: 42 :: junk))) = true := by
    have h13 : headBytes name ++ (t ++ commaJoin ts (59 :: 10 :: 47 :: 42 :: junk)) =
        strB ("INSERT INTO") ++
          ((32 : Byte) :: 96 :: (name ++ (strB ("` VALUES ") ++
            (t ++ commaJoin ts (59 :: 10 :: 47 :: 42 :: junk))))) := by
      rw [headBytes, show strB ("INSERT INTO `") =
        strB ("INSERT INTO") ++ [32, 96] from by decide]
      simp [List.append_assoc]
    rw [h13]
    exact isPrefixOf_app_self _ _
  have hfind := findSubstr_some0 hpre
  have hstep : nextRowParser P
      (headBytes name ++ (t ++ commaJoin ts (59 :: 10 :: 47 :: 42 :: junk))) =
      .ok (commaJoin ts (59 :: 10 :: 47 :: 42 :: junk)) (f t) :=
    nextRow_ok (sep_head name _ hname) (hts t (by simp) _)
  have hlen : ts.length + 1 ≤
      (headBytes name ++ (t ++ commaJoin ts (59 :: 10 :: 47 :: 42 :: junk))).length := by
    have h1 := commaJoin_length_ge ts (59 :: 10 :: 47 :: 42 :: junk)
    have e1 : (strB ("INSERT INTO `")).length = 13 := by decide
    have e2 : (strB ("` VALUES ")).length = 9 := by decide
    simp only [headBytes, List.length_append, List.length_cons, e1, e2] at *
    omega
  have hrest := iterRows_commaJoin ts
    ((headBytes name ++ (t ++ commaJoin ts (59 :: 10 :: 47 :: 42 :: junk))).length)
    (59 :: 10 :: 47 :: 42 :: junk)
    (fun u hu r => hts u (by simp [hu]) r) (sep_trailer junk) hlen
  simp only [iterateSqlInsertions, hfind, List.drop_zero, runIterator, iterRows_succ,
    hstep, hrest, List.map_cons]

/-- The `u32` field parser on a digit run followed by a non-digit. -/
theorem u32FromSql_app {ds : List Byte} (hne : ds ≠ [])
    (hds : ∀ b ∈ ds, isDigitB b = true) {y : Byte} (hy : isDigitB y = false)
    (s : List Byte) (hbound : digitsToNat ds < 2 ^ 32) :
    u32FromSql (ds ++ y :: s) = .ok (y :: s) (digitsToNat ds) := by
  have hd := pdigit1_app hne hds hy s
  have hlen : (ds ++ y :: s).length - (y :: s).length = ds.length := by simp
  have htake : (ds ++ y :: s).take ((ds ++ y :: s).length - (y :: s).length) = ds := by
    rw [hlen]; exact take_app_self ds (y :: s)
  simp only [u32FromSql, pcontext, pmapRes, precognize, PResult.andThen, hd, htake,
    hbound, if_pos]

/-- The `babel` tuple `(1,'a','b')` parses completely whatever follows it. -/
theorem babel_tuple_complete :
    ∀ r, babelFromSqlTuple (strB ("(1,'a','b')") ++ r) =
      .ok r ⟨⟨1⟩, strB ("a"), strB ("b")⟩ := by
  intro r
  rw [show strB ("(1,'a','b')") ++ r =
    40 :: 49 :: 44 :: 39 :: 97 :: 39 :: 44 :: 39 :: 98 :: 39 :: 41 :: r from rfl]
  have hu32 := @u32FromSql_app [49] (by decide) (by decide) 44
    (by decide) (39 :: 97 :: 39 :: 44 :: 39 :: 98 :: 39 :: 41 :: r) (by decide)
  simp only [List.cons_append, List.nil_append] at hu32
  rw [show digitsToNat [49] = 1 from by decide] at hu32
  have huid : userIdFromSql (49 :: 44 :: 39 :: 97 :: 39 :: 44 :: 39 :: 98 :: 39 ::
      41 :: r) = .ok (44 :: 39 :: 97 :: 39 :: 44 :: 39 :: 98 :: 39 :: 41 :: r) ⟨1⟩ := by
    simp only [userIdFromSql, pcontext, pmap, PResult.andThen, hu32]
  have hs1 := @strFromSql_app [97] (by decide) (by decide)
    (44 :: 39 :: 98 :: 39 :: 41 :: r)
  simp only [List.cons_append, List.nil_append] at hs1
  have hs2 := @strFromSql_app [98] (by decide) (by decide) (41 :: r)
  simp only [List.cons_append, List.nil_append] at hs2
  have hf1 : rowField ("the field user") userIdFromSql
      (49 :: 44 :: 39 :: 97 :: 39 :: 44 :: 39 :: 98 :: 39 :: 41 :: r) =
      .ok (39 :: 97 :: 39 :: 44 :: 39 :: 98 :: 39 :: 41 :: r) (⟨1⟩ : UserId) := by
    simp only [rowField, pterminated, pcontext, pmap, pseq, popt, PResult.andThen,
      huid, pchar_cons_self]
  have hf2 : rowField ("the field lang") strFromSql
      (39 :: 97 :: 39 :: 44 :: 39 :: 98 :: 39 :: 41 :: r) =
      .ok (39 :: 98 :: 39 :: 41 :: r) [97] := by
    simp only [rowField, pterminated, pcontext, pmap, pseq, popt, PResult.andThen,
      hs1, pchar_cons_self]
  have hf3 : rowField ("the field level") strFromSql (39 :: 98 :: 39 :: 41 :: r) =
      .ok (41 :: r) [98] := by
    simp only [rowField, pterminated, pcontext, pmap, pseq, popt, PResult.andThen,
      hs2, pchar_cons_ne (show (41 : Byte) ≠ 44 by decide)]
  simp only [babelFromSqlTuple, pcontext, ppreceded, pterminated, pmap, pseq, pcut,
    PResult.andThen, pchar_cons_self, hf1, hf2, hf3]
  rfl

/-- C2 witness: the amended theorem applied to the `babel` row parser with
one concrete tuple. -/
theorem iterate_yields_rows_then_trailer_witness :
    iterateSqlInsertions babelFromSqlTuple
        (headBytes (strB ("babel")) ++
          (strB ("(1,'a','b')") ++ commaJoin [] (59 :: 10 :: 47 :: 42 :: []))) =
      .ok ([⟨⟨1⟩, strB ("a"), strB ("b")⟩], 59 :: 10 :: 47 :: 42 :: []) := by
  exact iterate_yields_rows_then_trailer babelFromSqlTuple
    (fun _ => ⟨⟨1⟩, strB ("a"), strB ("b")⟩) (strB ("babel")) (strB ("(1,'a','b')"))
    [] [] (by decide) (by
      intro u hu r
      simp only [List.mem_singleton] at hu
      rw [hu]
      exact babel_tuple_complete r)

/-! ## Claim C4: inputs with no `INSERT INTO` -/

/-- C4: on an input in which `INSERT INTO` occurs nowhere,
`iterate_sql_insertions` fails with the clear message of its `expect` call
(`"INSERT INTO statement"`), rather than yielding rows. -/
theorem iterate_no_insert_into_fails {ρ : Type} (P : Parser ρ) (sql : List Byte)
    (h : ∀ i, (strB ("INSERT INTO")).isPrefixOf (sql.drop i) = false) :
    iterateSqlInsertions P sql = .error ("INSERT INTO statement") := by
  have hf : findSubstr (strB ("INSERT INTO")) sql = none :=
    findSubstr_none_of (by decide) sql h
  simp only [iterateSqlInsertions, hf]

/-- C4 witness: a concrete `INSERT INTO`-free script. -/
theorem iterate_no_insert_into_fails_witness :
    iterateSqlInsertions babelFromSqlTuple (strB ("SELECT 1;\n")) =
      .error ("INSERT INTO statement") :=
  iterate_no_insert_into_fails babelFromSqlTuple (strB ("SELECT 1;\n"))
    (findSubstr_none_imp (by decide) _ (by decide))

/-! ## Claim C5: the table name in the statement head

The spec claims the table name must match `[a-z_]+`; the driver uses
`take_while`, which also accepts the empty name, so the name is `[a-z_]*`. -/

/-- C5 counterexample: a statement head with an empty table name — which the
claim says is not a valid separator — is accepted by the separator parser. -/
theorem sep_empty_table_name_accepted :
    sepParser (strB ("INSERT INTO `` VALUES (")) =
      .ok (strB ("(")) (strB ("INSERT INTO `` VALUES ")) := by decide

/-- C5 (amended): the separator accepts a statement head whose table name is
any (possibly empty) sequence of bytes from `[a-z_]`, consuming exactly the
head; and a head whose name run is followed by a byte that is neither a name
byte nor the closing backtick is not a valid separator. -/
theorem sep_table_name_charset :
    (∀ name rest, (∀ b ∈ name, isNameB b = true) →
      sepParser (headBytes name ++ rest) =
        .ok rest ((headBytes name ++ rest).take
          ((headBytes name ++ rest).length - rest.length))) ∧
    (∀ pre c rest, (∀ b ∈ pre, isNameB b = true) → isNameB c = false → c ≠ 96 →
      sepParser (strB ("INSERT INTO `") ++ (pre ++ c :: rest)) = .err) :=
  ⟨fun name rest h => sep_head name rest h,
   fun pre c rest h1 h2 h3 => sep_head_badname pre c rest h1 h2 h3⟩

/-- C5 witness: the amended theorem at the name `page` (accepted) and at a
name run followed by the byte `A` (rejected). -/
theorem sep_table_name_charset_witness :
    sepParser (headBytes (strB ("page")) ++ strB ("(")) =
      .ok (strB ("(")) ((headBytes (strB ("page")) ++ strB ("(")).take
        ((headBytes (strB ("page")) ++ strB ("(")).length - (strB ("(")).length)) ∧
    sepParser (strB ("INSERT INTO `") ++ (strB ("a") ++ 65 :: [])) = .err :=
  ⟨sep_table_name_charset.1 (strB ("page")) (strB ("(")) (by decide),
   sep_table_name_charset.2 (strB ("a")) 65 [] (by decide) (by decide) (by decide)⟩

/-! ## Claim C3: the two Timestamp shapes

The spec claims an accepted timestamp string has length exactly 14 or 19.
The code only uses the length to choose the format string (14 selects the
compact one, anything else the spaced one), and chrono's numeric fields are
flexible in width, so the spaced format also accepts other lengths. -/

/-- C3 counterexample: the 17-byte string `2020-2-1 15:15:54` — which the
claim says must fail — is accepted by `Timestamp::from_sql`. -/
theorem timestamp_length_17_accepted :
    timestampFromSql (strB ("'2020-2-1 15:15:54'")) =
      .ok [] ⟨⟨2020, 2, 1, 15, 15, 54, 0⟩⟩ ∧
    (strB ("2020-2-1 15:15:54")).length = 17 := by decide

/-- C3 (amended): every accepted Timestamp comes from a quoted string that
the parser handed, by length, either to the compact format (when its length
is exactly 14) or else to the spaced format — whose flexible field widths
accept lengths other than 19, so only the dispatch on length 14 holds. -/
theorem timestamp_format_by_length (s r : List Byte) (t : Timestamp)
    (h : timestampFromSql s = .ok r t) :
    ∃ bs, strFromSql s = .ok r bs ∧
      ((bs.length = 14 ∧ parseCompactFmt bs = some t.toNaive) ∨
       (bs.length ≠ 14 ∧ parseSpacedFmt bs = some t.toNaive)) := by
  unfold timestampFromSql pcontext at h
  obtain ⟨bs, hbs, hf⟩ := pmapRes_ok h
  refine ⟨bs, hbs, ?_⟩
  by_cases h14 : bs.length = 14
  · left
    refine ⟨h14, ?_⟩
    rw [if_pos h14] at hf
    cases hc : parseCompactFmt bs with
    | none => rw [hc] at hf; exact nomatch hf
    | some dt =>
      rw [hc] at hf
      have hsome : some (Timestamp.mk dt) = some t := hf
      injection hsome with h2
      rw [← h2]
  · right
    refine ⟨h14, ?_⟩
    rw [if_neg h14] at hf
    cases hc : parseSpacedFmt bs with
    | none => rw [hc] at hf; exact nomatch hf
    | some dt =>
      rw [hc] at hf
      have hsome : some (Timestamp.mk dt) = some t := hf
      injection hsome with h2
      rw [← h2]

/-! ## Claim C7: closed and open enumerations -/

/-- C7: parsing a quoted string as the closed `PageType` fails whenever the
interior is not exactly `page`, `subcat`, or `file` (including invalid
UTF-8), and succeeds with the named variant on those three; parsing any
quoted UTF-8 string as one of the five open enumerations succeeds, yielding
the value of the `From<&str>` lookup table, which is the `Other` variant
carrying the literal string exactly when the string is outside the
vocabulary and the named variant on each vocabulary word. -/
theorem enum_closed_and_open_vocabularies :
    (∀ bs rest, (39 : Byte) ∉ bs →
      bs ≠ strB ("page") → bs ≠ strB ("subcat") → bs ≠ strB ("file") →
      pageTypeFromSql (39 :: (bs ++ 39 :: rest)) = .err) ∧
    (∀ rest,
      pageTypeFromSql (39 :: (strB ("page") ++ 39 :: rest)) = .ok rest .Page ∧
      pageTypeFromSql (39 :: (strB ("subcat") ++ 39 :: rest)) = .ok rest .Subcat ∧
      pageTypeFromSql (39 :: (strB ("file") ++ 39 :: rest)) = .ok rest .File) ∧
    (∀ bs rest, (39 : Byte) ∉ bs → utf8Valid bs = true →
      contentModelFromSql (39 :: (bs ++ 39 :: rest)) =
        .ok rest (contentModelOfBytes bs) ∧
      mediaTypeFromSql (39 :: (bs ++ 39 :: rest)) = .ok rest (mediaTypeOfBytes bs) ∧
      majorMimeFromSql (39 :: (bs ++ 39 :: rest)) = .ok rest (majorMimeOfBytes bs) ∧
      pageActionFromSql (39 :: (bs ++ 39 :: rest)) = .ok rest (pageActionOfBytes bs) ∧
      protectionLevelFromSql (39 :: (bs ++ 39 :: rest)) =
        .ok rest (protectionLevelOfBytes bs)) ∧
    (∀ bs, bs ∉ [strB ("wikitext"), strB ("Scribunto"), strB ("text"), strB ("css"),
        strB ("sanitized-css"), strB ("javascript"), strB ("json")] →
      contentModelOfBytes bs = .Other bs) ∧
    (∀ bs, bs ∉ [strB ("UNKNOWN"), strB ("BITMAP"), strB ("DRAWING"), strB ("AUDIO"),
        strB ("VIDEO"), strB ("MULTIMEDIA"), strB ("OFFICE"), strB ("TEXT"),
        strB ("EXECUTABLE"), strB ("ARCHIVE"), strB ("3D")] →
      mediaTypeOfBytes bs = .Other bs) ∧
    (∀ bs, bs ∉ [strB ("unknown"), strB ("application"), strB ("audio"),
        strB ("image"), strB ("text"), strB ("video"), strB ("message"),
        strB ("model"), strB ("multipart")] →
      majorMimeOfBytes bs = .Other bs) ∧
    (∀ bs, bs ∉ [strB ("edit"), strB ("move"), strB ("reply"), strB ("upload")] →
      pageActionOfBytes bs = .Other bs) ∧
    (∀ bs, bs ∉ [strB ("autoconfirmed"), strB ("extendedconfirmed"),
        strB ("templateeditor"), strB ("sysop"), strB ("editprotected"),
        strB ("editsemiprotected"), ([] : List Byte)] →
      protectionLevelOfBytes bs = .Other bs) ∧
    (contentModelOfBytes (strB ("wikitext")) = .Wikitext ∧
     contentModelOfBytes (strB ("Scribunto")) = .Scribunto ∧
     contentModelOfBytes (strB ("text")) = .Text ∧
     contentModelOfBytes (strB ("css")) = .Css ∧
     contentModelOfBytes (strB ("sanitized-css")) = .SanitizedCss ∧
     contentModelOfBytes (strB ("javascript")) = .JavaScript ∧
     contentModelOfBytes (strB ("json")) = .Json ∧
     mediaTypeOfBytes (strB ("UNKNOWN")) = .Unknown ∧
     mediaTypeOfBytes (strB ("BITMAP")) = .Bitmap ∧
     mediaTypeOfBytes (strB ("DRAWING")) = .Drawing ∧
     mediaTypeOfBytes (strB ("AUDIO")) = .Audio ∧
     mediaTypeOfBytes (strB ("VIDEO")) = .Video ∧
     mediaTypeOfBytes (strB ("MULTIMEDIA")) = .Multimedia ∧
     mediaTypeOfBytes (strB ("OFFICE")) = .Office ∧
     mediaTypeOfBytes (strB ("TEXT")) = .Text ∧
     mediaTypeOfBytes (strB ("EXECUTABLE")) = .Executable ∧
     mediaTypeOfBytes (strB ("ARCHIVE")) = .Archive ∧
     mediaTypeOfBytes (strB ("3D")) = .ThreeDimensional ∧
     majorMimeOfBytes (strB ("unknown")) = .Unknown ∧
     majorMimeOfBytes (strB ("application")) = .Application ∧
     majorMimeOfBytes (strB ("audio")) = .Audio ∧
     majorMimeOfBytes (strB ("image")) = .Image ∧
     majorMimeOfBytes (strB ("text")) = .Text ∧
     majorMimeOfBytes (strB ("video")) = .Video ∧
     majorMimeOfBytes (strB ("message")) = .Message ∧
     majorMimeOfBytes (strB ("model")) = .Model ∧
     majorMimeOfBytes (strB ("multipart")) = .Multipart ∧
     pageActionOfBytes (strB ("edit")) = .Edit ∧
     pageActionOfBytes (strB ("move")) = .Move ∧
     pageActionOfBytes (strB ("reply")) = .Reply ∧
     pageActionOfBytes (strB ("upload")) = .Upload ∧
     protectionLevelOfBytes (strB ("autoconfirmed")) = .Autoconfirmed ∧
     protectionLevelOfBytes (strB ("extendedconfirmed")) = .ExtendedConfirmed ∧
     protectionLevelOfBytes (strB ("templateeditor")) = .TemplateEditor ∧
     protectionLevelOfBytes (strB ("sysop")) = .Sysop ∧
     protectionLevelOfBytes (strB ("editprotected")) = .EditProtected ∧
     protectionLevelOfBytes (strB ("editsemiprotected")) = .EditSemiProtected ∧
     protectionLevelOfBytes ([] : List Byte) = .None) := by
  refine ⟨?_, ?_, ?_, ?_, ?_, ?_, ?_, ?_, by decide⟩
  · intro bs rest hq h1 h2 h3
    cases hu : utf8Valid bs with
    | false =>
      have hs := strFromSql_app_badUtf8 hq hu rest
      simp only [pageTypeFromSql, pcontext, pmapRes, PResult.andThen, hs]
    | true =>
      have hs := strFromSql_app hq hu rest
      simp only [pageTypeFromSql, pcontext, pmapRes, PResult.andThen, hs,
        pageTypeOfBytes, if_neg h1, if_neg h2, if_neg h3]
  · intro rest
    refine ⟨?_, ?_, ?_⟩
    · have hs := @strFromSql_app (strB ("page")) (by decide) (by decide) rest
      simp only [pageTypeFromSql, pcontext, pmapRes, PResult.andThen, hs,
        show pageTypeOfBytes (strB ("page")) = some .Page from by decide]
    · have hs := @strFromSql_app (strB ("subcat")) (by decide) (by decide) rest
      simp only [pageTypeFromSql, pcontext, pmapRes, PResult.andThen, hs,
        show pageTypeOfBytes (strB ("subcat")) = some .Subcat from by decide]
    · have hs := @strFromSql_app (strB ("file")) (by decide) (by decide) rest
      simp only [pageTypeFromSql, pcontext, pmapRes, PResult.andThen, hs,
        show pageTypeOfBytes (strB ("file")) = some .File from by decide]
  · intro bs rest hq hu
    have hs := strFromSql_app hq hu rest
    refine ⟨?_, ?_, ?_, ?_, ?_⟩
    · simp only [contentModelFromSql, pcontext, pmap, PResult.andThen, hs]
    · simp only [mediaTypeFromSql, pcontext, pmap, PResult.andThen, hs]
    · simp only [majorMimeFromSql, pcontext, pmap, PResult.andThen, hs]
    · simp only [pageActionFromSql, pmap, PResult.andThen, hs]
    · simp only [protectionLevelFromSql, pcontext, pmap, PResult.andThen, hs]
  · intro bs h
    simp only [List.mem_cons, List.mem_singleton, not_or] at h
    obtain ⟨h1, h2, h3, h4, h5, h6, h7, -⟩ := h
    simp only [contentModelOfBytes, if_neg h1, if_neg h2, if_neg h3, if_neg h4,
      if_neg h5, if_neg h6, if_neg h7]
  · intro bs h
    simp only [List.mem_cons, List.mem_singleton, not_or] at h
    obtain ⟨h1, h2, h3, h4, h5, h6, h7, h8, h9, h10, h11, -⟩ := h
    simp only [mediaTypeOfBytes, if_neg h1, if_neg h2, if_neg h3, if_neg h4,
      if_neg h5, if_neg h6, if_neg h7, if_neg h8, if_neg h9, if_neg h10, if_neg h11]
  · intro bs h
    simp only [List.mem_cons, List.mem_singleton, not_or] at h
    obtain ⟨h1, h2, h3, h4, h5, h6, h7, h8, h9, -⟩ := h
    simp only [majorMimeOfBytes, if_neg h1, if_neg h2, if_neg h3, if_neg h4,
      if_neg h5, if_neg h6, if_neg h7, if_neg h8, if_neg h9]
  · intro bs h
    simp only [List.mem_cons, List.mem_singleton, not_or] at h
    obtain ⟨h1, h2, h3, h4, -⟩ := h
    simp only [pageActionOfBytes, if_neg h1, if_neg h2, if_neg h3, if_neg h4]
  · intro bs h
    simp only [List.mem_cons, List.mem_singleton, not_or] at h
    obtain ⟨h1, h2, h3, h4, h5, h6, h7, -⟩ := h
    simp only [protectionLevelOfBytes, if_neg h1, if_neg h2, if_neg h3, if_neg h4,
      if_neg h5, if_neg h6, if_neg h7]

/-- C7 witness: the closed enum rejecting `xyzzy`, accepting `page`, and an
open enum carrying `xyzzy` into `Other`. -/
theorem enum_closed_and_open_vocabularies_witness :
    pageTypeFromSql (39 :: (strB ("xyzzy") ++ 39 :: [])) = .err ∧
    pageTypeFromSql (39 :: (strB ("page") ++ 39 :: [])) = .ok [] .Page ∧
    contentModelFromSql (39 :: (strB ("xyzzy") ++ 39 :: [])) =
      .ok [] (contentModelOfBytes (strB ("xyzzy"))) ∧
    contentModelOfBytes (strB ("xyzzy")) = .Other (strB ("xyzzy")) :=
  ⟨enum_closed_and_open_vocabularies.1 (strB ("xyzzy")) [] (by decide) (by decide)
      (by decide) (by decide),
   (enum_closed_and_open_vocabularies.2.1 []).1,
   (enum_closed_and_open_vocabularies.2.2.1 (strB ("xyzzy")) [] (by decide)
      (by decide)).1,
   enum_closed_and_open_vocabularies.2.2.2.1 (strB ("xyzzy")) (by decide)⟩

/-- C3 witness: the dispatch at the compact 14-byte timestamp. -/
theorem timestamp_format_by_length_witness :
    ∃ bs, strFromSql (strB ("'20200201151554'")) = .ok [] bs ∧
      ((bs.length = 14 ∧
        parseCompactFmt bs = some (⟨2020, 2, 1, 15, 15, 54, 0⟩ : NaiveDateTime)) ∨
       (bs.length ≠ 14 ∧
        parseSpacedFmt bs = some (⟨2020, 2, 1, 15, 15, 54, 0⟩ : NaiveDateTime))) :=
  timestamp_format_by_length (strB ("'20200201151554'")) []
    ⟨⟨2020, 2, 1, 15, 15, 54, 0⟩⟩ (by decide)

/-! ## Claim C10: the provenance of `PageAction::All` -/

/-- C10: the quoted string `'all'` parses to `PageAction::Other("all")` and
never to `All` (the `From<&str>` table has no `"all"` arm); in
`PageRestrictionsOld` parsing, a restriction part maps to the `All` action
exactly when it contains no `=`, i.e. `All` comes only from the bare-level
branch. -/
theorem page_action_all_only_from_bare_level :
    pageActionFromSql (strB ("'all'")) = .ok [] (.Other (strB ("all"))) ∧
    (∀ bs, pageActionOfBytes bs ≠ .All) ∧
    (∀ part, (parseRestriction part).1 = .All ↔ (61 : Byte) ∉ part) := by
  refine ⟨by decide, pageActionOfBytes_ne_All, ?_⟩
  intro part
  have hiff : ((rsplitOnce 61 part).2 = Option.none) ↔ (61 : Byte) ∉ part := by
    unfold rsplitOnce
    by_cases hl : (part.reverse.takeWhile fun b => b ≠ 61).length = part.length
    · rw [if_pos hl]
      refine ⟨fun _ => ?_, fun _ => rfl⟩
      rw [show part.length = part.reverse.length from (List.length_reverse _).symm] at hl
      have hall := (takeWhile_length_eq_iff part.reverse).mp hl
      intro hmem
      have h61 := hall 61 (List.mem_reverse.mpr hmem)
      simp at h61
    · rw [if_neg hl]
      refine ⟨fun hcontra => (nomatch hcontra), fun hnot => ?_⟩
      exfalso
      apply hl
      rw [show part.length = part.reverse.length from (List.length_reverse _).symm]
      refine (takeWhile_length_eq_iff part.reverse).mpr ?_
      intro b hb
      have hbne : b ≠ 61 := fun he => hnot (he ▸ List.mem_reverse.mp hb)
      simp [hbne]
  rcases hsplit : rsplitOnce 61 part with ⟨lvl, act⟩
  have h2 : (parseRestriction part).1 = (act.map pageActionOfBytes).getD .All := by
    simp [parseRestriction, hsplit]
  rw [h2]
  cases act with
  | none =>
    rw [hsplit] at hiff
    exact ⟨fun _ => hiff.mp rfl, fun _ => rfl⟩
  | some a =>
    have hne := pageActionOfBytes_ne_All a
    rw [hsplit] at hiff
    refine ⟨fun hAll => absurd hAll hne, fun hnotin => ?_⟩
    exact nomatch (hiff.mpr hnotin)

/-- C10 witness: the lookup at `all` and the bare-level branch at `sysop`. -/
theorem page_action_all_only_from_bare_level_witness :
    pageActionOfBytes (strB ("all")) ≠ .All ∧
    ((parseRestriction (strB ("sysop"))).1 = .All ↔ (61 : Byte) ∉ strB ("sysop")) :=
  ⟨page_action_all_only_from_bare_level.2.1 (strB ("all")),
   page_action_all_only_from_bare_level.2.2 (strB ("sysop"))⟩

/-! ## Claim C9: the non-NaN float parser

`NotNan::<f64>::from_sql` wraps with `NotNan::new_unchecked` whatever
`recognize_float` recognized and Rust then parsed; the recognized text
always starts, after at most one sign byte, with a digit or a dot, so it is
never a NaN spelling, and a Rust float parse of such text is never NaN. -/

/-- C9: every value produced by the `NotNan<f64>` field parser is non-NaN,
so the unchecked `NotNan` construction never wraps a NaN. -/
theorem notnan_parser_never_nan (s r : List Byte) (v : RustF64)
    (h : notNanF64FromSql s = .ok r v) : v.isNan = false := by
  unfold notNanF64FromSql pcontext at h
  obtain ⟨v2, h2, hv⟩ := pmap_ok h
  unfold f64FromSql pcontext at h2
  obtain ⟨consumed, hrec, hparse⟩ := pmapRes_ok h2
  unfold recognizeFloat at hrec
  obtain ⟨u, hskel, hcons⟩ := precognize_ok hrec
  unfold floatSkeleton at hskel
  obtain ⟨a, ha, _⟩ := pmap_ok hskel
  obtain ⟨m1, hsign, hrest⟩ := pseq_ok ha
  obtain ⟨m2, hman, hexp⟩ := pseq_ok hrest
  have hm1shape : ∃ c k, m1 = c :: (k ++ m2) ∧ (isDigitB c = true ∨ c = 46) := by
    rcases palt_ok hman with hb1 | ⟨_, hb2⟩
    · obtain ⟨a1, ha1, _⟩ := pmap_ok hb1
      obtain ⟨mm, hd, hopt⟩ := pseq_ok ha1
      obtain ⟨hm1, hdne⟩ := pdigit1_consume hd
      obtain ⟨pre2, hp2⟩ := popt_consume
        (pseq_consume (pchar_consumes 46) (popt_consume pdigit1_consumes))
        mm m2 _ hopt
      cases hd0 : a1.1 with
      | nil => exact absurd hd0 hdne
      | cons c k0 =>
        refine ⟨c, k0 ++ pre2, ?_, Or.inl ?_⟩
        · rw [hm1, hd0, hp2]
          simp [List.append_assoc]
        · have hdig := (pdigit1_ok hd).1
          exact takeWhile_all m1 c (by rw [← hdig, hd0]; simp)
    · obtain ⟨a2, ha2, _⟩ := pmap_ok hb2
      obtain ⟨mm, hc46, hd2⟩ := pseq_ok ha2
      obtain ⟨d2, hp2⟩ := pdigit1_consumes mm m2 _ hd2
      exact ⟨46, d2, by rw [pchar_consume hc46, hp2], Or.inr rfl⟩
  obtain ⟨c, k, hm1eq, hc⟩ := hm1shape
  obtain ⟨pre3, hp3⟩ := popt_consume
    (pseq_consume (palt_consume (pchar_consumes 101) (pchar_consumes 69))
      (pseq_consume (popt_consume (palt_consume (pchar_consumes 43)
        (pchar_consumes 45))) (pcut_consumes pdigit1_consumes))) m2 r _ hexp
  have hsignshape : s = m1 ∨ ∃ b, (b = 43 ∨ b = 45) ∧ s = b :: m1 := by
    rcases popt_ok hsign with ⟨a3, ha3, _⟩ | ⟨_, hr, _⟩
    · rcases palt_ok ha3 with h43 | ⟨_, h45⟩
      · exact Or.inr ⟨43, Or.inl rfl, pchar_consume h43⟩
      · exact Or.inr ⟨45, Or.inr rfl, pchar_consume h45⟩
    · exact Or.inl hr.symm
  have hx : ∀ X : List Byte, s = X ++ r → consumed = X := by
    intro X hX
    rw [hcons, hX]
    have hXl : (X ++ r).length - r.length = X.length := by simp
    rw [hXl]
    exact take_app_self X r
  have hconsumed : consumed = c :: (k ++ pre3) ∨
      ∃ b, (b = 43 ∨ b = 45) ∧ consumed = b :: c :: (k ++ pre3) := by
    rcases hsignshape with hs1 | ⟨b, hb, hs2⟩
    · left
      apply hx
      rw [hs1, hm1eq, hp3]
      simp [List.append_assoc]
    · right
      refine ⟨b, hb, hx _ ?_⟩
      rw [hs2, hm1eq, hp3]
      simp [List.append_assoc]
  have hcnosign : (decide (c = 43) || decide (c = 45)) = false := by
    rcases hc with hd | h46
    · simp only [isDigitB, Bool.and_eq_true, decide_eq_true_eq] at hd
      have h43 : c ≠ 43 := fun he => absurd (he ▸ hd.1) (by decide)
      have h45 : c ≠ 45 := fun he => absurd (he ▸ hd.1) (by decide)
      simp [h43, h45]
    · rw [h46]
      decide
  have hstrip : stripSign consumed = c :: (k ++ pre3) := by
    rcases hconsumed with h1 | ⟨b, hb, h2⟩
    · rw [h1]
      simp only [stripSign, hcnosign, Bool.false_eq_true, if_false]
    · rcases hb with hb | hb <;> rw [h2, hb] <;> simp [stripSign]
  have hlc : toLowerB c ≠ 110 := by
    rcases hc with hd | h46
    · simp only [isDigitB, Bool.and_eq_true, decide_eq_true_eq] at hd
      have hno65 : ¬(65 ≤ c) := fun hle => absurd (Nat.le_trans hle hd.2) (by decide)
      unfold toLowerB
      rw [if_neg (by simp [hno65])]
      exact fun he => absurd (he ▸ hd.2) (by decide)
    · rw [h46]
      decide
  have hnan : isNanSpelling consumed = false := by
    unfold isNanSpelling
    rw [hstrip, strB_nan]
    simp [List.map_cons, hlc]
  have hne : consumed ≠ [] := by
    rcases hconsumed with h1 | ⟨b, _, h2⟩
    · simp [h1]
    · simp [h2]
  cases hu : utf8Valid consumed with
  | false =>
    rw [hu] at hparse
    simp at hparse
  | true =>
    rw [hu] at hparse
    rw [if_pos rfl] at hparse
    unfold rustParseF64 at hparse
    rw [if_neg (by simp [hne])] at hparse
    rw [hnan] at hparse
    simp only [Bool.false_eq_true, if_false] at hparse
    split_ifs at hparse with hinf hvalid
    · injection hparse with hval
      rw [hv, ← hval]
    · injection hparse with hval
      rw [hv, ← hval]

/-- C9 witness: the theorem at the literal `0.5` followed by a comma. -/
theorem notnan_parser_never_nan_witness :
    notNanF64FromSql (strB ("0.5,")) = .ok (strB (",")) ⟨false⟩ ∧
    (⟨false⟩ : RustF64).isNan = false :=
  ⟨by decide,
   notnan_parser_never_nan (strB ("0.5,")) (strB (",")) ⟨false⟩ (by decide)⟩

end MwSql
